import Mathlib

/-!
OpenMiner: player collision / motion and block targeting

A shallow embedding of `source/client/world/ClientPlayer.cpp` and
`source/hud/BlockCursor.cpp`.

Numbers: the C++ `float` / `double` quantities are embedded in an arbitrary
linearly ordered field `K` with a floor function (`ℚ` is the executable
instance, `ℝ` the one with square roots).  The player code is embedded in exact
arithmetic.  The ray march of the block cursor accumulates single-precision
values, so its single-precision operations go through a rounding function
(`FloatModel`): `exactFloat` is exact arithmetic, `ieeeFloat` is IEEE binary32
round-to-nearest-even on `ℚ`.  NaN, infinities and overflow are outside the
model.  Machine `int`s are `Int`.

Library functions that are not part of the repository (`cosf`, `sinf`, the
square root behind `glm::length` / `glm::normalize`) and the macro
`RADIANS_PER_DEGREES` are taken as parameters, bundled in `Libm`.
-/

namespace OpenMiner

/-! ## Data model -/

/-- Three-component vector (`glm::vec3`, `gk::Vector3f`, `gk::Vector3d`). -/
@[ext] structure Vec3 (K : Type) where
  x : K
  y : K
  z : K

/-- Two-component vector (`glm::dvec2`, the inertia buffer). -/
structure Vec2 (K : Type) where
  x : K
  y : K

/-- The player hitbox (`m_hitbox`): offset and extents relative to the position. -/
structure Hitbox (K : Type) where
  x : K
  y : K
  z : K
  sizeX : K
  sizeY : K
  sizeZ : K

/-- What `world.getBlockState` exposes of a block state: `block().id()`,
`isCollidable()`, `fogDepth()` and `fogColor()`. -/
structure BlockState (K : Type) where
  blockId : Nat
  isCollidable : Bool
  fogDepth : K
  fogColor : Nat

/-- What `updatePosition` reads of a chunk: `isInitialized()` and
`dimension().gravity()`. -/
structure ClientChunk (K : Type) where
  isInitialized : Bool
  gravity : K

/-- The world query interface used by `ClientPlayer` (a null pointer is `none`). -/
structure ClientWorld (K : Type) where
  getChunkAtBlockPos : Int → Int → Int → Option (ClientChunk K)
  getBlockState : Int → Int → Int → Option (BlockState K)

/-- The flags `Config::isFlyModeEnabled` and `Config::isNoClipEnabled`. -/
structure Config where
  isFlyModeEnabled : Bool
  isNoClipEnabled : Bool

/-- The globals `GameConfig::currentScreenEffect`, `fogDepth`, `fogColor`. -/
structure GameConfig (K : Type) where
  currentScreenEffect : Nat
  fogDepth : K
  fogColor : Nat

/-- The part of `gk::Camera` written by the player. -/
structure Camera (K : Type) where
  dPosition : Vec3 K
  direction : Vec3 K
  upVector : Vec3 K

/-- Library functions and the degree-to-radian macro, which are not repository code. -/
structure Libm (K : Type) where
  cosf : K → K
  sinf : K → K
  sqrt : K → K
  RADIANS_PER_DEGREES : K

/-- Single-precision arithmetic: the stored result of a `float` operation or
conversion is `round` of its exact value. -/
structure FloatModel (K : Type) where
  round : K → K

/-- The keys of `GameKey` read by `processInputs`. -/
inductive GameKey where
  | Jump
  | Sprint
  | Sneak
  | Forward
  | Back
  | Left
  | Right
  deriving DecidableEq, Repr

/-- The state of `ClientPlayer`. -/
structure ClientPlayer (K : Type) where
  m_x : K
  m_y : K
  m_z : K
  m_velocity : Vec3 K
  inertiaBuffer : Vec2 K
  maxSpeed : K
  m_isJumping : Bool
  m_jumpSpeed : K
  m_hitbox : Hitbox K
  m_viewAngleH : K
  m_viewAngleV : K
  m_viewAngleRoll : K
  m_forwardDir : Vec3 K
  m_cameraLocalPos : Vec3 K
  m_camera : Camera K

section Player

variable {K : Type} [LinearOrderedField K] [FloorRing K]

/-- Conversion of a floating value to `int` (C++: truncation toward zero). -/
def toInt (v : K) : Int := if 0 ≤ v then ⌊v⌋ else ⌈v⌉

/-- The C function `fmodf`: `x - trunc(x / y) * y`. -/
def fmodf (x y : K) : K := x - ((toInt (x / y) : Int) : K) * y

/-! ## ClientPlayer.cpp -/

/-- Embeds `ClientPlayer::updateCamera`. -/
def updateCamera (m : Libm K) (p : ClientPlayer K) : ClientPlayer K :=
  let ch := m.cosf (p.m_viewAngleH * m.RADIANS_PER_DEGREES)
  let sh := m.sinf (p.m_viewAngleH * m.RADIANS_PER_DEGREES)
  let cv := m.cosf (p.m_viewAngleV * m.RADIANS_PER_DEGREES)
  let sv := m.sinf (p.m_viewAngleV * m.RADIANS_PER_DEGREES)
  let cr := m.cosf (p.m_viewAngleRoll * m.RADIANS_PER_DEGREES)
  let sr := m.sinf (p.m_viewAngleRoll * m.RADIANS_PER_DEGREES)
  let fwd : Vec3 K := ⟨ch * cv, sh * cv, sv⟩
  { p with
    m_forwardDir := fwd
    m_camera := { p.m_camera with
      direction := fwd
      upVector := ⟨sh * sr - ch * sv * cr, -ch * sr - sh * sv * cr, cv * cr⟩ } }

/-- Embeds `ClientPlayer::turnH`. -/
def turnH (m : Libm K) (angle : K) (p : ClientPlayer K) : ClientPlayer K :=
  let a := fmodf (p.m_viewAngleH + angle) 360
  let a := if a ≥ 180 then a - 360 else a
  let a := if a < -180 then a + 360 else a
  updateCamera m { p with m_viewAngleH := a }

/-- Embeds `ClientPlayer::turnViewV`. -/
def turnViewV (m : Libm K) (angle : K) (p : ClientPlayer K) : ClientPlayer K :=
  updateCamera m { p with m_viewAngleV := max (min (p.m_viewAngleV + angle) 90) (-90) }

/-- Embeds `ClientPlayer::move`; `glm::length v` is `sqrt (dot v v)` and
`glm::normalize v` is `v * (1 / sqrt (dot v v))` (`inversesqrt`). -/
def move (m : Libm K) (direction : K) (p : ClientPlayer K) : ClientPlayer K :=
  let direction := direction + p.m_viewAngleH
  let bufX := p.inertiaBuffer.x + 0.001 * m.cosf (direction * m.RADIANS_PER_DEGREES)
  let bufY := p.inertiaBuffer.y + 0.001 * m.sinf (direction * m.RADIANS_PER_DEGREES)
  let testSpeed := m.sqrt (bufX * bufX + bufY * bufY)
  if testSpeed > p.maxSpeed then
    let nx := bufX * (1 / m.sqrt (bufX * bufX + bufY * bufY))
    let ny := bufY * (1 / m.sqrt (bufX * bufX + bufY * bufY))
    let tx := nx * ((p.maxSpeed + testSpeed) / 20)
    let ty := ny * ((p.maxSpeed + testSpeed) / 20)
    { p with inertiaBuffer := ⟨bufX - tx, bufY - ty⟩ }
  else
    { p with inertiaBuffer := ⟨bufX, bufY⟩ }

/-- Embeds `ClientPlayer::applyFriction`. -/
def applyFriction (p : ClientPlayer K) : ClientPlayer K :=
  { p with inertiaBuffer := ⟨p.inertiaBuffer.x / 1.05, p.inertiaBuffer.y / 1.05⟩ }

/-- Embeds `ClientPlayer::applyVelocity`. -/
def applyVelocity (p : ClientPlayer K) : ClientPlayer K :=
  { p with m_velocity := { p.m_velocity with x := p.inertiaBuffer.x, y := p.inertiaBuffer.y } }

/-- The speed-mode selection of `ClientPlayer::processInputs` (the
`Sprint` / `else if Sneak` / `else` chain). -/
def selectMaxSpeed (keys : GameKey → Bool) : K :=
  if keys GameKey.Sprint then 0.05
  else if keys GameKey.Sneak then 0.01
  else 0.03

/-- Embeds `ClientPlayer::processInputs`; `keys k` is `gk::GamePad::isKeyPressed(k)`. -/
def processInputs (m : Libm K) (keys : GameKey → Bool) (p : ClientPlayer K) :
    ClientPlayer K :=
  let p := if keys GameKey.Jump && !p.m_isJumping then
      { p with m_isJumping := true, m_velocity := { p.m_velocity with z := p.m_jumpSpeed } }
    else p
  let p := { p with maxSpeed := selectMaxSpeed keys }
  let hasPressed := false
  let (p, hasPressed) := if keys GameKey.Forward then (move m 0 p, true) else (p, hasPressed)
  let (p, hasPressed) := if keys GameKey.Back then (move m 180 p, true) else (p, hasPressed)
  let (p, hasPressed) := if keys GameKey.Left then (move m 90 p, true) else (p, hasPressed)
  let (p, hasPressed) := if keys GameKey.Right then (move m (-90) p, true) else (p, hasPressed)
  let p := applyVelocity p
  if !hasPressed then applyFriction p else p

/-- Embeds the free function `passable`. -/
def passable (world : ClientWorld K) (x y z : K) : Bool :=
  match world.getBlockState ⌊x⌋ ⌊y⌋ ⌊z⌋ with
  | none => true
  | some blockState => blockState.blockId == 0 || !blockState.isCollidable

/-- Embeds `ClientPlayer::testPoint`, called with `vel` bound to `m_velocity`. -/
def testPoint (world : ClientWorld K) (x y z : K) (p : ClientPlayer K) : ClientPlayer K :=
  let p := if !passable world (x + p.m_velocity.x) y z then
      { p with m_velocity := { p.m_velocity with x := 0 } } else p
  let p := if !passable world x (y + p.m_velocity.y) z then
      { p with m_velocity := { p.m_velocity with y := 0 } } else p
  if !passable world x y (z + p.m_velocity.z) then
    let p := if p.m_velocity.z < 0 && p.m_isJumping then { p with m_isJumping := false } else p
    { p with m_velocity := { p.m_velocity with z := 0 } }
  else p

/-- The constant `numPointsPerEdge` of `checkCollisions`. -/
def numPointsPerEdge : Nat := 3

/-- The constant `lastPoint` of `checkCollisions`. -/
def lastPoint : Nat := numPointsPerEdge - 1

/-- Embeds `ClientPlayer::checkCollisions`: the three nested loops, `z` outermost. -/
def checkCollisions (world : ClientWorld K) (p : ClientPlayer K) : ClientPlayer K :=
  let corner : Vec3 K := ⟨p.m_x + p.m_hitbox.x, p.m_y + p.m_hitbox.y, p.m_z + p.m_hitbox.z⟩
  (List.range (lastPoint + 1)).foldl (fun p z =>
    (List.range (lastPoint + 1)).foldl (fun p y =>
      (List.range (lastPoint + 1)).foldl (fun p x =>
        if x = 0 ∨ x = lastPoint ∨ y = 0 ∨ y = lastPoint ∨ z = 0 ∨ z = lastPoint then
          testPoint world
            (corner.x + p.m_hitbox.sizeX * ((x : K) / (lastPoint : K)))
            (corner.y + p.m_hitbox.sizeY * ((y : K) / (lastPoint : K)))
            (corner.z + p.m_hitbox.sizeZ * ((z : K) / (lastPoint : K))) p
        else p) p) p) p

/-- Embeds `ClientPlayer::setPosition`. -/
def setPosition (x y z : K) (p : ClientPlayer K) : ClientPlayer K :=
  let p := { p with m_x := x, m_y := y, m_z := z }
  let camPos := p.m_cameraLocalPos
  { p with m_camera := { p.m_camera with
      dPosition := ⟨p.m_x + camPos.x, p.m_y + camPos.y, p.m_z + camPos.z⟩ } }

/-- Embeds `ClientPlayer::updatePosition`.  The `double` coordinates passed to
`getChunkAtBlockPos` and `getBlockState` convert to the `int` parameters by
truncation. -/
def updatePosition (cfg : Config) (world : ClientWorld K)
    (s : ClientPlayer K × GameConfig K) : ClientPlayer K × GameConfig K :=
  let p := s.1
  let chunk := world.getChunkAtBlockPos (toInt p.m_x) (toInt p.m_y) (toInt p.m_z)
  let p :=
    match chunk with
    | some c =>
      if c.isInitialized then
        if !cfg.isFlyModeEnabled then
          let vz := p.m_velocity.z - c.gravity * 0.001
          let vz := if vz < -p.m_jumpSpeed then -p.m_jumpSpeed else vz
          { p with m_isJumping := true, m_velocity := { p.m_velocity with z := vz } }
        else p
      else if !cfg.isNoClipEnabled then { p with m_velocity := ⟨0, 0, 0⟩ }
      else p
    | none =>
      if !cfg.isNoClipEnabled then { p with m_velocity := ⟨0, 0, 0⟩ }
      else p
  let p := if !cfg.isNoClipEnabled then checkCollisions world p else p
  let p := if !cfg.isFlyModeEnabled && decide (p.m_velocity.z ≠ 0) then
      { p with m_velocity := { p.m_velocity with
          x := p.m_velocity.x * 0.75, y := p.m_velocity.y * 0.75 } }
    else p
  let p := setPosition (p.m_x + p.m_velocity.x) (p.m_y + p.m_velocity.y)
    (p.m_z + p.m_velocity.z) p
  let p := { p with m_velocity := { p.m_velocity with x := 0, y := 0 } }
  let p := if cfg.isFlyModeEnabled then { p with m_velocity := { p.m_velocity with z := 0 } }
    else p
  let cam := p.m_camera.dPosition
  let g := s.2
  let g :=
    match world.getBlockState (toInt cam.x) (toInt cam.y) (toInt cam.z) with
    | some blockState =>
      if blockState.fogDepth ≠ 0 then
        { g with currentScreenEffect := 1, fogDepth := blockState.fogDepth,
                 fogColor := blockState.fogColor }
      else { g with currentScreenEffect := 0 }
    | none => { g with currentScreenEffect := 0 }
  (p, g)

end Player

/-! ## BlockCursor.cpp -/

/-- What `m_world.getBlock` exposes of a block: `id()`. -/
structure Block where
  id : Nat

/-- The world interface used by `BlockCursor` (a null pointer is `none`). -/
structure World where
  getBlock : Int → Int → Int → Option Block

/-- One call `m_world.setBlock(x, y, z, id)`. -/
structure SetBlockCall where
  x : Int
  y : Int
  z : Int
  id : Nat
  deriving DecidableEq, Repr

/-- The fields of `SDL_Event` read by `onEvent`: `type` and `button.button`. -/
structure SDL_Event where
  type : Nat
  button : Nat

/-- SDL constant `SDL_MOUSEBUTTONDOWN`. -/
def SDL_MOUSEBUTTONDOWN : Nat := 0x401

/-- SDL constant `SDL_BUTTON_LEFT`. -/
def SDL_BUTTON_LEFT : Nat := 1

/-- SDL constant `SDL_BUTTON_RIGHT`. -/
def SDL_BUTTON_RIGHT : Nat := 3

/-- The selection `m_selectedBlock` (`glm::vec4`): voxel `x y z` and face `w`. -/
structure Selection where
  x : Int
  y : Int
  z : Int
  w : Int
  deriving DecidableEq, Repr

/-- Embeds `BlockCursor::onEvent`: the list of `setBlock` calls it makes. -/
def onEvent (m_selectedBlock : Selection) (event : SDL_Event) : List SetBlockCall :=
  if event.type = SDL_MOUSEBUTTONDOWN then
    if event.button = SDL_BUTTON_LEFT then
      [⟨m_selectedBlock.x, m_selectedBlock.y, m_selectedBlock.z, 0⟩]
    else if event.button = SDL_BUTTON_RIGHT then
      let face := m_selectedBlock.w
      let x := m_selectedBlock.x
      let y := m_selectedBlock.y
      let z := m_selectedBlock.z
      let x := if face = 0 then x + 1 else x
      let x := if face = 3 then x - 1 else x
      let y := if face = 1 then y + 1 else y
      let y := if face = 4 then y - 1 else y
      let z := if face = 2 then z + 1 else z
      let z := if face = 5 then z - 1 else z
      [⟨x, y, z, 1⟩]
    else []
  else []

/-- The camera accessors read by `findSelectedBlock`. -/
structure CursorCamera (K : Type) where
  x : K
  y : K
  z : K
  pointTargetedX : K
  pointTargetedY : K
  pointTargetedZ : K

section Cursor

variable {K : Type} [LinearOrderedField K] [FloorRing K]

/-- Embeds `BlockCursor::fract`: the distance to the nearest integer. -/
def fract (value : K) : K :=
  let f := value - (⌊value⌋ : K)
  if f > 0.5 then 1 - f else f

/-- The test `block && block->id()` of the ray march. -/
def World.nonAir (world : World) (mx my mz : Int) : Bool :=
  match world.getBlock mx my mz with
  | none => false
  | some block => block.id != 0

/-- Exact arithmetic: nothing is rounded. -/
def exactFloat : FloatModel K := ⟨fun v => v⟩

/-- Nearest integer, ties to the even one. -/
def roundHalfEven (q : ℚ) : Int :=
  if q - (⌊q⌋ : ℚ) < 1 / 2 then ⌊q⌋
  else if 1 / 2 < q - (⌊q⌋ : ℚ) then ⌊q⌋ + 1
  else if ⌊q⌋ % 2 = 0 then ⌊q⌋ else ⌊q⌋ + 1

/-- Helper of `natLog2`, by recursion on the fuel. -/
def natLog2Fuel : Nat → Nat → Nat
  | 0, _ => 0
  | fuel + 1, n => if 2 ≤ n then natLog2Fuel fuel (n / 2) + 1 else 0

/-- The binary logarithm of a natural number, rounded down: `floor (log2 n)`
(0 for `n = 0`). -/
def natLog2 (n : Nat) : Nat := natLog2Fuel n n

/-- The binary exponent `floor (log2 q)` of a positive rational. -/
def binExponent (q : ℚ) : Int :=
  if 1 ≤ q then (natLog2 (Int.toNat ⌊q⌋) : Int)
  else -((natLog2 (Int.toNat ⌈1 / q⌉ - 1) : Int) + 1)

/-- IEEE binary32 rounding of a rational, round-to-nearest-even: 24 significant
bits, exponent not below `-126` (subnormals); overflow is not modelled. -/
def roundF32 (q : ℚ) : ℚ :=
  if q = 0 then 0
  else
    let e := max (binExponent |q|) (-126)
    let ulp : ℚ :=
      if 23 ≤ e then ((2 ^ (e - 23).toNat : Nat) : ℚ)
      else 1 / ((2 ^ (23 - e).toNat : Nat) : ℚ)
    (roundHalfEven (q / ulp) : ℚ) * ulp

/-- IEEE binary32 arithmetic on the rationals. -/
def ieeeFloat : FloatModel ℚ := ⟨roundF32⟩

/-- The `for` loop of the ray march in `findSelectedBlock`, with `n` iterations
left; returns the final `(testPos, prevPos)`.  `testPos += lookAt * 0.1f` is a
single-precision multiplication followed by a single-precision addition. -/
def rayLoop (fl : FloatModel K) (world : World) (lookAt : Vec3 K) :
    Nat → Vec3 K → Vec3 K → Vec3 K × Vec3 K
  | 0, testPos, prevPos => (testPos, prevPos)
  | n + 1, testPos, _ =>
    let prevPos := testPos
    let testPos : Vec3 K :=
      ⟨fl.round (testPos.x + fl.round (lookAt.x * fl.round 0.1)),
       fl.round (testPos.y + fl.round (lookAt.y * fl.round 0.1)),
       fl.round (testPos.z + fl.round (lookAt.z * fl.round 0.1))⟩
    if world.nonAir ⌊testPos.x⌋ ⌊testPos.y⌋ ⌊testPos.z⌋ then (testPos, prevPos)
    else rayLoop fl world lookAt n testPos prevPos

/-- Embeds `BlockCursor::findSelectedBlock`.  `objCoord` stands for the result of
`glm::unProject` on the depth read by `glReadPixels` (graphics library calls).
The components of the `glm::vec3` values `lookAt` and `position` are single
precision: each is the rounding of the value it is initialised with. -/
def findSelectedBlock (fl : FloatModel K) (world : World) (m_camera : CursorCamera K)
    (objCoord : Vec3 K) (useDepthBuffer : Bool) : Selection :=
  let face : Int := -1
  let lookAt : Vec3 K := ⟨fl.round (m_camera.pointTargetedX - m_camera.x),
    fl.round (m_camera.pointTargetedY - m_camera.y),
    fl.round (m_camera.pointTargetedZ - m_camera.z)⟩
  let position : Vec3 K := ⟨fl.round m_camera.x, fl.round m_camera.y, fl.round m_camera.z⟩
  if useDepthBuffer then
    let mx := toInt objCoord.x
    let my := toInt objCoord.y
    let mz := toInt objCoord.z
    let mx := if objCoord.x < 0 then mx - 1 else mx
    let my := if objCoord.y < 0 then my - 1 else my
    let mz := if objCoord.z < 0 then mz - 1 else mz
    let face : Int :=
      if fract objCoord.x < fract objCoord.y then
        if fract objCoord.x < fract objCoord.z then 0 else 2
      else
        if fract objCoord.y < fract objCoord.z then 1 else 2
    let face := if face = 0 ∧ lookAt.x > 0 then face + 3 else face
    let face := if face = 1 ∧ lookAt.y > 0 then face + 3 else face
    let face := if face = 2 ∧ lookAt.z > 0 then face + 3 else face
    ⟨mx, my, mz, face⟩
  else
    let r := rayLoop fl world lookAt 100 position position
    let testPos := r.1
    let prevPos := r.2
    let mx : Int := ⌊testPos.x⌋
    let my : Int := ⌊testPos.y⌋
    let mz : Int := ⌊testPos.z⌋
    let px : Int := ⌊prevPos.x⌋
    let py : Int := ⌊prevPos.y⌋
    let pz : Int := ⌊prevPos.z⌋
    let face : Int :=
      if px > mx then 0
      else if px < mx then 3
      else if py > my then 1
      else if py < my then 4
      else if pz > mz then 2
      else if pz < mz then 5
      else face
    if world.nonAir mx my mz then ⟨mx, my, mz, face⟩
    else ⟨99999, 99999, 99999, face⟩

end Cursor

/-! ## Specification-side vocabulary -/

section Vocabulary

variable {K : Type} [LinearOrderedField K] [FloorRing K]

/-- Grid indices visited by the loops of `checkCollisions`, in loop order
(`z` outermost, `x` innermost), the centre `(1, 1, 1)` skipped. -/
def gridIndices : List (Nat × Nat × Nat) :=
  (List.range (lastPoint + 1)).flatMap fun z =>
    (List.range (lastPoint + 1)).flatMap fun y =>
      (List.range (lastPoint + 1)).filterMap fun x =>
        if x = 0 ∨ x = lastPoint ∨ y = 0 ∨ y = lastPoint ∨ z = 0 ∨ z = lastPoint then
          some (x, y, z)
        else none

/-- The hitbox sample point with grid indices `(ix, iy, iz)`, as computed in
`checkCollisions`. -/
def samplePoint (p : ClientPlayer K) (i : Nat × Nat × Nat) : Vec3 K :=
  ⟨p.m_x + p.m_hitbox.x + p.m_hitbox.sizeX * ((i.1 : K) / (lastPoint : K)),
   p.m_y + p.m_hitbox.y + p.m_hitbox.sizeY * ((i.2.1 : K) / (lastPoint : K)),
   p.m_z + p.m_hitbox.z + p.m_hitbox.sizeZ * ((i.2.2 : K) / (lastPoint : K))⟩

/-- The index triple names one of the 26 boundary points of the 3x3x3 grid:
every index in `0..2`, the centre `(1, 1, 1)` excluded. -/
def IsBoundaryIndex (i : Nat × Nat × Nat) : Prop :=
  i.1 ≤ 2 ∧ i.2.1 ≤ 2 ∧ i.2.2 ≤ 2 ∧ ¬ (i.1 = 1 ∧ i.2.1 = 1 ∧ i.2.2 = 1)

instance : DecidablePred IsBoundaryIndex := fun i => by
  unfold IsBoundaryIndex; infer_instance

/-- The voxel holding the point `(x, y, z)` is impassable: present, with a
non-zero block id, and collidable. -/
def ClientWorld.solidAt (world : ClientWorld K) (x y z : K) : Prop :=
  ∃ bs, world.getBlockState ⌊x⌋ ⌊y⌋ ⌊z⌋ = some bs ∧ bs.blockId ≠ 0 ∧ bs.isCollidable = true

/-- A flat floor: every voxel below height 0 is collidable and non-air, every
voxel at height 0 or above is air (block id 0). -/
def ClientWorld.FlatFloor (world : ClientWorld K) : Prop :=
  (∀ x y z : Int, z < 0 →
    ∃ bs, world.getBlockState x y z = some bs ∧ bs.blockId ≠ 0 ∧ bs.isCollidable = true) ∧
  (∀ x y z : Int, 0 ≤ z → ∃ bs, world.getBlockState x y z = some bs ∧ bs.blockId = 0)

/-- Height of the lowest face of the hitbox (the corner height when `sizeZ ≥ 0`). -/
def hitboxBottom (p : ClientPlayer K) : K :=
  p.m_z + p.m_hitbox.z + min 0 p.m_hitbox.sizeZ

/-- The gravity of the chunk at the player's position when that chunk is present
and initialized (chunk readiness), `none` otherwise. -/
def readyGravity (world : ClientWorld K) (p : ClientPlayer K) : Option K :=
  match world.getChunkAtBlockPos (toInt p.m_x) (toInt p.m_y) (toInt p.m_z) with
  | some c => if c.isInitialized then some c.gravity else none
  | none => none

/-- The velocity after only the gravity step (skipped in fly mode or when the
chunk is not ready; the fall speed is limited to the jump speed) and the 0.75
airborne damping of the horizontal components. -/
def noClipVelocity (cfg : Config) (gravity : Option K) (p : ClientPlayer K) : Vec3 K :=
  let vz : K :=
    match gravity with
    | some g =>
      if cfg.isFlyModeEnabled then p.m_velocity.z
      else max (p.m_velocity.z - g * 0.001) (-p.m_jumpSpeed)
    | none => p.m_velocity.z
  if cfg.isFlyModeEnabled = false ∧ vz ≠ 0 then
    ⟨p.m_velocity.x * 0.75, p.m_velocity.y * 0.75, vz⟩
  else ⟨p.m_velocity.x, p.m_velocity.y, vz⟩

/-- First stage of `updatePosition`: gravity when the chunk is ready, velocity
lock when it is not (unless no-clip). -/
def gravityStage (cfg : Config) (world : ClientWorld K) (p : ClientPlayer K) :
    ClientPlayer K :=
  match world.getChunkAtBlockPos (toInt p.m_x) (toInt p.m_y) (toInt p.m_z) with
  | some c =>
    if c.isInitialized then
      if !cfg.isFlyModeEnabled then
        let vz := p.m_velocity.z - c.gravity * 0.001
        let vz := if vz < -p.m_jumpSpeed then -p.m_jumpSpeed else vz
        { p with m_isJumping := true, m_velocity := { p.m_velocity with z := vz } }
      else p
    else if !cfg.isNoClipEnabled then { p with m_velocity := ⟨0, 0, 0⟩ }
    else p
  | none =>
    if !cfg.isNoClipEnabled then { p with m_velocity := ⟨0, 0, 0⟩ }
    else p

/-- Second stage of `updatePosition`: the collision resolver unless no-clip. -/
def collisionStage (cfg : Config) (world : ClientWorld K) (p : ClientPlayer K) :
    ClientPlayer K :=
  if !cfg.isNoClipEnabled then checkCollisions world p else p

/-- Third stage of `updatePosition`: the airborne damping of the horizontal velocity. -/
def dampStage (cfg : Config) (p : ClientPlayer K) : ClientPlayer K :=
  if !cfg.isFlyModeEnabled && decide (p.m_velocity.z ≠ 0) then
    { p with m_velocity := { p.m_velocity with
        x := p.m_velocity.x * 0.75, y := p.m_velocity.y * 0.75 } }
  else p

/-- Fourth stage of `updatePosition`: commit the position, then reset the velocity. -/
def commitStage (cfg : Config) (p : ClientPlayer K) : ClientPlayer K :=
  let p := setPosition (p.m_x + p.m_velocity.x) (p.m_y + p.m_velocity.y)
    (p.m_z + p.m_velocity.z) p
  let p := { p with m_velocity := { p.m_velocity with x := 0, y := 0 } }
  if cfg.isFlyModeEnabled then { p with m_velocity := { p.m_velocity with z := 0 } } else p

/-- Runs `testPoint` over a list of points, in order. -/
def testPoints (world : ClientWorld K) (pts : List (Vec3 K)) (p : ClientPlayer K) :
    ClientPlayer K :=
  pts.foldl (fun p pt => testPoint world pt.x pt.y pt.z p) p

/-- The `position` vector of `findSelectedBlock`: the camera position, stored in
single precision. -/
def cameraPosition (fl : FloatModel K) (cam : CursorCamera K) : Vec3 K :=
  ⟨fl.round cam.x, fl.round cam.y, fl.round cam.z⟩

/-- The `lookAt` vector of `findSelectedBlock`: targeted point minus camera
position, stored in single precision. -/
def cameraLookAt (fl : FloatModel K) (cam : CursorCamera K) : Vec3 K :=
  ⟨fl.round (cam.pointTargetedX - cam.x), fl.round (cam.pointTargetedY - cam.y),
   fl.round (cam.pointTargetedZ - cam.z)⟩

/-- The closed form `position + k * 0.1 * lookAt` of the `k`-th point of the ray. -/
def rayPoint (position lookAt : Vec3 K) (k : Nat) : Vec3 K :=
  ⟨position.x + (k : K) * 0.1 * lookAt.x, position.y + (k : K) * 0.1 * lookAt.y,
   position.z + (k : K) * 0.1 * lookAt.z⟩

/-- The `k`-th sample of the ray march as the loop computes it: sample 0 is the
position, each further sample is the previous one plus `lookAt * 0.1f`, with
the single-precision product and sum rounded. -/
def raySample (fl : FloatModel K) (position lookAt : Vec3 K) : Nat → Vec3 K
  | 0 => position
  | k + 1 =>
    ⟨fl.round ((raySample fl position lookAt k).x + fl.round (lookAt.x * fl.round 0.1)),
     fl.round ((raySample fl position lookAt k).y + fl.round (lookAt.y * fl.round 0.1)),
     fl.round ((raySample fl position lookAt k).z + fl.round (lookAt.z * fl.round 0.1))⟩

/-- The voxel holding a point: the floor of each coordinate. -/
def voxelOf (v : Vec3 K) : Int × Int × Int := (⌊v.x⌋, ⌊v.y⌋, ⌊v.z⌋)

/-- The voxel is present in the world and is not air (block id non-zero). -/
def World.IsNonAir (world : World) (v : Int × Int × Int) : Prop :=
  ∃ b, world.getBlock v.1 v.2.1 v.2.2 = some b ∧ b.id ≠ 0

/-- The voxel of the `k`-th sample of the ray march from the camera. -/
def sampleVoxel (fl : FloatModel K) (cam : CursorCamera K) (k : Nat) : Int × Int × Int :=
  voxelOf (raySample fl (cameraPosition fl cam) (cameraLookAt fl cam) k)

/-- Sample `k` is the hit of the ray march: `k` is in `1..100`, the voxel of
sample `k` is present and non-air, and no earlier sample from 1 on is. -/
def FirstHit (fl : FloatModel K) (world : World) (cam : CursorCamera K) (k : Nat) : Prop :=
  1 ≤ k ∧ k ≤ 100 ∧ world.IsNonAir (sampleVoxel fl cam k) ∧
  ∀ i, 1 ≤ i → i < k → ¬ world.IsNonAir (sampleVoxel fl cam i)

/-- The two voxels are at most one unit apart on each axis. -/
def UnitApart (a b : Int × Int × Int) : Prop :=
  |a.1 - b.1| ≤ 1 ∧ |a.2.1 - b.2.1| ≤ 1 ∧ |a.2.2 - b.2.2| ≤ 1

/-- The "no selection" coordinate. -/
def sentinel : Int × Int × Int := (99999, 99999, 99999)

/-- The voxel coordinate of a selection. -/
def Selection.coord (s : Selection) : Int × Int × Int := (s.x, s.y, s.z)

/-- The face inferred from the voxels of the last two samples (the comparison
chain of the ray march, `-1` when the two voxels coincide). -/
def faceBetween (prev cur : Int × Int × Int) : Int :=
  if prev.1 > cur.1 then 0
  else if prev.1 < cur.1 then 3
  else if prev.2.1 > cur.2.1 then 1
  else if prev.2.1 < cur.2.1 then 4
  else if prev.2.2 > cur.2.2 then 2
  else if prev.2.2 < cur.2.2 then 5
  else -1

/-- The displacement `onEvent` applies to the selected coordinate on a right
click: `+1` along X, Y, Z for faces 0, 1, 2, `-1` for faces 3, 4, 5, none otherwise. -/
def faceOffset (face : Int) : Int × Int × Int :=
  if face = 0 then (1, 0, 0)
  else if face = 1 then (0, 1, 0)
  else if face = 2 then (0, 0, 1)
  else if face = 3 then (-1, 0, 0)
  else if face = 4 then (0, -1, 0)
  else if face = 5 then (0, 0, -1)
  else (0, 0, 0)

/-- A sequence of `turnH` calls, one per amount of the list, in order. -/
def turnHs (m : Libm K) (angles : List K) (p : ClientPlayer K) : ClientPlayer K :=
  angles.foldl (fun p a => turnH m a p) p

/-- No directional key (Forward, Back, Left, Right) is pressed. -/
def NoDirection (keys : GameKey → Bool) : Prop :=
  keys GameKey.Forward = false ∧ keys GameKey.Back = false ∧
    keys GameKey.Left = false ∧ keys GameKey.Right = false

/-- One `processInputs` call per key state of the list, in order. -/
def processInputsSeq (m : Libm K) (ks : List (GameKey → Bool)) (p : ClientPlayer K) :
    ClientPlayer K :=
  ks.foldl (fun p keys => processInputs m keys p) p

/-- The library square root is the non-negative square root. -/
def Libm.IsSqrt (m : Libm K) : Prop :=
  ∀ v, 0 ≤ v → 0 ≤ m.sqrt v ∧ m.sqrt v * m.sqrt v = v

/-- The library cosine and sine lie on the unit circle. -/
def Libm.IsTrig (m : Libm K) : Prop :=
  ∀ a, m.cosf a * m.cosf a + m.sinf a * m.sinf a = 1

/-- The magnitude of the inertia buffer (`glm::length`). -/
def magnitude (m : Libm K) (v : Vec2 K) : K := m.sqrt (v.x * v.x + v.y * v.y)

/-- The inertia buffer after the accumulation step of `move` (before the
smoothing correction). -/
def accumulated (m : Libm K) (direction : K) (p : ClientPlayer K) : Vec2 K :=
  ⟨p.inertiaBuffer.x +
      0.001 * m.cosf ((direction + p.m_viewAngleH) * m.RADIANS_PER_DEGREES),
   p.inertiaBuffer.y +
      0.001 * m.sinf ((direction + p.m_viewAngleH) * m.RADIANS_PER_DEGREES)⟩

/-- A call on the player during a session: `processInputs` with the keys pressed,
or `updatePosition` with the no-clip setting and the world of that moment. -/
inductive PlayerCall (K : Type) where
  | inputs (keys : GameKey → Bool)
  | update (noClip : Bool) (world : ClientWorld K)

/-- Runs one call, with the fly-mode setting fixed. -/
def runCall (m : Libm K) (fly : Bool) (c : PlayerCall K)
    (s : ClientPlayer K × GameConfig K) : ClientPlayer K × GameConfig K :=
  match c with
  | PlayerCall.inputs keys => (processInputs m keys s.1, s.2)
  | PlayerCall.update noClip world => updatePosition ⟨fly, noClip⟩ world s

/-- Runs a sequence of calls in order, with the fly-mode setting fixed. -/
def runCalls (m : Libm K) (fly : Bool) (calls : List (PlayerCall K))
    (s : ClientPlayer K × GameConfig K) : ClientPlayer K × GameConfig K :=
  calls.foldl (fun s c => runCall m fly c s) s

/-- The airborne flag is set and the vertical velocity is not negative. -/
def AirborneRising (p : ClientPlayer K) : Prop :=
  p.m_isJumping = true ∧ 0 ≤ p.m_velocity.z

/-- The two voxels differ on exactly one axis. -/
def DifferOnOneAxis (a b : Int × Int × Int) : Prop :=
  (a.1 ≠ b.1 ∧ a.2.1 = b.2.1 ∧ a.2.2 = b.2.2) ∨
  (a.1 = b.1 ∧ a.2.1 ≠ b.2.1 ∧ a.2.2 = b.2.2) ∨
  (a.1 = b.1 ∧ a.2.1 = b.2.1 ∧ a.2.2 ≠ b.2.2)

/-- A player at rest at the origin with inertia buffer `(bx, 0)`, view angles 0
and the default speed cap. -/
def restingPlayer (bx : K) : ClientPlayer K :=
  { m_x := 0, m_y := 0, m_z := 0
    m_velocity := ⟨0, 0, 0⟩
    inertiaBuffer := ⟨bx, 0⟩
    maxSpeed := 0.03
    m_isJumping := false
    m_jumpSpeed := 0.15
    m_hitbox := ⟨0, 0, 0, 0.5, 0.5, 0.5⟩
    m_viewAngleH := 0, m_viewAngleV := 0, m_viewAngleRoll := 0
    m_forwardDir := ⟨1, 0, 0⟩
    m_cameraLocalPos := ⟨0, 0, 1.625⟩
    m_camera := ⟨⟨0, 0, 1.625⟩, ⟨1, 0, 0⟩, ⟨0, 0, 1⟩⟩ }

/-- A left mouse-button press. -/
def leftClick : SDL_Event := ⟨SDL_MOUSEBUTTONDOWN, SDL_BUTTON_LEFT⟩

/-- A right mouse-button press. -/
def rightClick : SDL_Event := ⟨SDL_MOUSEBUTTONDOWN, SDL_BUTTON_RIGHT⟩

end Vocabulary

/-! ## Example inputs (over `ℚ`) -/

section Examples

/-- A block state that is collidable and not air. -/
def stone : BlockState ℚ := ⟨1, true, 0, 0⟩

/-- The air block state. -/
def air : BlockState ℚ := ⟨0, false, 0, 0⟩

/-- A loaded world whose only solid voxel is `(1, 1, 0)`. -/
def cornerWorld : ClientWorld ℚ :=
  ⟨fun _ _ _ => some ⟨true, 10⟩,
   fun x y z => if x = 1 ∧ y = 1 ∧ z = 0 then some stone else none⟩

/-- A loaded world with a flat floor: stone below height 0, air from 0 up. -/
def floorWorld : ClientWorld ℚ :=
  ⟨fun _ _ _ => some ⟨true, 10⟩, fun _ _ z => if z < 0 then some stone else some air⟩

/-- A world none of whose chunks is loaded (block data as in `cornerWorld`). -/
def unloadedWorld : ClientWorld ℚ :=
  ⟨fun _ _ _ => none, fun x y z => if x = 1 ∧ y = 1 ∧ z = 0 then some stone else none⟩

/-- A player at `(0.4, 0.4, 0.2)` with a cubic hitbox of side `0.5`, moving
diagonally by `(0.2, 0.2, 0)`. -/
def cornerPlayer : ClientPlayer ℚ :=
  { m_x := 2 / 5, m_y := 2 / 5, m_z := 1 / 5
    m_velocity := ⟨1 / 5, 1 / 5, 0⟩
    inertiaBuffer := ⟨0, 0⟩
    maxSpeed := 3 / 100
    m_isJumping := false
    m_jumpSpeed := 3 / 20
    m_hitbox := ⟨0, 0, 0, 1 / 2, 1 / 2, 1 / 2⟩
    m_viewAngleH := 0, m_viewAngleV := 0, m_viewAngleRoll := 0
    m_forwardDir := ⟨1, 0, 0⟩
    m_cameraLocalPos := ⟨0, 0, 13 / 8⟩
    m_camera := ⟨⟨2 / 5, 2 / 5, 73 / 40⟩, ⟨1, 0, 0⟩, ⟨0, 0, 1⟩⟩ }

/-- An airborne player just above the floor, falling by `0.05` per tick. -/
def fallingPlayer : ClientPlayer ℚ :=
  { cornerPlayer with
    m_x := 1 / 2, m_y := 1 / 2, m_z := 1 / 100
    m_velocity := ⟨0, 0, -1 / 20⟩
    m_isJumping := true
    m_hitbox := ⟨-1 / 5, -1 / 5, 0, 2 / 5, 2 / 5, 9 / 5⟩ }

/-- Rational stand-ins for the library functions (the values at angle 0). -/
def stubLibm : Libm ℚ := ⟨fun _ => 1, fun _ => 0, fun v => v, 1 / 60⟩

/-- Sprint and Sneak pressed together, nothing else. -/
def sprintSneakKeys : GameKey → Bool
  | GameKey.Sprint => true
  | GameKey.Sneak => true
  | _ => false

/-- Fly mode off, no-clip on. -/
def noClipConfig : Config := ⟨false, true⟩

/-- Fly mode off, no-clip off. -/
def defaultConfig : Config := ⟨false, false⟩

/-- Screen-effect globals at rest. -/
def restGameConfig : GameConfig ℚ := ⟨0, 0, 0⟩

/-- A world whose only non-air voxel is `(5, 0, 0)`. -/
def singleVoxelWorld : World :=
  ⟨fun x y z => if x = 5 ∧ y = 0 ∧ z = 0 then some ⟨1⟩ else none⟩

/-- A world whose only non-air voxel is `(0, 0, 0)`. -/
def originVoxelWorld : World :=
  ⟨fun x y z => if x = 0 ∧ y = 0 ∧ z = 0 then some ⟨1⟩ else none⟩

/-- A camera inside voxel `(0, 0, 0)`, looking along `+x`. -/
def insideCamera : CursorCamera ℚ := ⟨1 / 2, 1 / 2, 1 / 2, 3 / 2, 1 / 2, 1 / 2⟩

/-- No key pressed. -/
def noKeys : GameKey → Bool := fun _ => false

/-- Only the Jump key pressed. -/
def jumpKeys : GameKey → Bool
  | GameKey.Jump => true
  | _ => false

/-- A player whose inertia buffer is `(0.021, 0)`. -/
def driftingPlayer : ClientPlayer ℚ :=
  { cornerPlayer with inertiaBuffer := ⟨21 / 1000, 0⟩ }

/-- An airborne player with upward velocity `0.05`. -/
def risingPlayer : ClientPlayer ℚ :=
  { fallingPlayer with m_velocity := ⟨0, 0, 1 / 20⟩ }

/-- An unprojected point whose `x` and `y` coordinates are equally close to an
integer (distance `0.25`), closer than `z` (distance `0.5`). -/
def tiePoint : Vec3 ℚ := ⟨1 / 4, 1 / 4, 1 / 2⟩

/-- A camera at the origin looking along `+x`. -/
def originCamera : CursorCamera ℚ := ⟨0, 0, 0, 1, 0, 0⟩

/-- A camera at the origin with look vector `(1, 203/1024, 0)`. -/
def slantCamera : CursorCamera ℚ := ⟨0, 0, 0, 1, 203 / 1024, 0⟩

/-- A camera at `x = -2⁻²⁴` with look vector `(10, 0, 0)` in single precision. -/
def edgeCamera : CursorCamera ℚ := ⟨-1 / 16777216, 0, 0, 10, 0, 0⟩

/-- A world whose only non-air voxel is `(2, 0, 0)`. -/
def secondVoxelWorld : World :=
  ⟨fun x y z => if x = 2 ∧ y = 0 ∧ z = 0 then some ⟨1⟩ else none⟩

end Examples

/-! ## Lemmas: collision resolver -/

section CollisionLemmas

variable {K : Type} [LinearOrderedField K] [FloorRing K]

/-- The loop order of `checkCollisions`, spelled out: 26 index triples. -/
theorem gridIndices_eq : gridIndices =
    [(0,0,0),(1,0,0),(2,0,0),(0,1,0),(1,1,0),(2,1,0),(0,2,0),(1,2,0),(2,2,0),
     (0,0,1),(1,0,1),(2,0,1),(0,1,1),(2,1,1),(0,2,1),(1,2,1),(2,2,1),
     (0,0,2),(1,0,2),(2,0,2),(0,1,2),(1,1,2),(2,1,2),(0,2,2),(1,2,2),(2,2,2)] := by
  decide

/-- The loops visit exactly the boundary indices. -/
theorem mem_gridIndices (i : Nat × Nat × Nat) :
    i ∈ gridIndices ↔ IsBoundaryIndex i := by
  obtain ⟨ix, iy, iz⟩ := i
  unfold IsBoundaryIndex
  constructor
  · intro h
    have key : ∀ i ∈ gridIndices,
        i.1 ≤ 2 ∧ i.2.1 ≤ 2 ∧ i.2.2 ≤ 2 ∧ ¬ (i.1 = 1 ∧ i.2.1 = 1 ∧ i.2.2 = 1) := by decide
    exact key _ h
  · rintro ⟨hx, hy, hz, hc⟩
    rw [gridIndices_eq]
    interval_cases ix <;> interval_cases iy <;> interval_cases iz <;> simp at hc ⊢

/-- The hitbox is not written by `testPoint`. -/
@[simp] theorem testPoint_m_hitbox (world : ClientWorld K) (x y z : K) (p : ClientPlayer K) :
    (testPoint world x y z p).m_hitbox = p.m_hitbox := by
  unfold testPoint
  simp only []
  split_ifs <;> rfl

/-- The nested loops of `checkCollisions` as one fold over the 26 sample points. -/
theorem checkCollisions_eq (world : ClientWorld K) (p : ClientPlayer K) :
    checkCollisions world p = testPoints world (gridIndices.map (samplePoint p)) p := by
  rw [gridIndices_eq]
  simp [checkCollisions, testPoints, samplePoint, lastPoint, numPointsPerEdge, List.range_succ]

/-- Closed form of `testPoint`: only the velocity and the airborne flag change. -/
theorem testPoint_eq (world : ClientWorld K) (x y z : K) (p : ClientPlayer K) :
    testPoint world x y z p =
      { p with
        m_velocity :=
          ⟨if passable world (x + p.m_velocity.x) y z then p.m_velocity.x else 0,
           if passable world x (y + p.m_velocity.y) z then p.m_velocity.y else 0,
           if passable world x y (z + p.m_velocity.z) then p.m_velocity.z else 0⟩
        m_isJumping :=
          if passable world x y (z + p.m_velocity.z) then p.m_isJumping
          else if p.m_velocity.z < 0 then false else p.m_isJumping } := by
  rcases p with ⟨_, _, _, ⟨vx, vy, vz⟩, _, _, j, _, _, _, _, _, _, _, _⟩
  simp only [testPoint]
  cases hx : passable world (x + vx) y z <;>
    cases hy : passable world x (y + vy) z <;>
    cases hz : passable world x y (z + vz) <;>
    cases j <;>
    by_cases hv : vz < 0 <;>
    simp [hx, hy, hz, hv]

/-- Unfolding of `testPoints` on the empty list. -/
theorem testPoints_nil (world : ClientWorld K) (p : ClientPlayer K) :
    testPoints world [] p = p := rfl

/-- Unfolding of `testPoints` on a non-empty list. -/
theorem testPoints_cons (world : ClientWorld K) (pt : Vec3 K) (pts : List (Vec3 K))
    (p : ClientPlayer K) :
    testPoints world (pt :: pts) p = testPoints world pts (testPoint world pt.x pt.y pt.z p) :=
  rfl

/-- Along `x`, the fold zeroes the component iff some point is blocked at the
original offset. -/
theorem testPoints_vx (world : ClientWorld K) (pts : List (Vec3 K)) (p : ClientPlayer K) :
    (testPoints world pts p).m_velocity.x =
      if ∃ pt ∈ pts, passable world (pt.x + p.m_velocity.x) pt.y pt.z = false then 0
      else p.m_velocity.x := by
  induction pts generalizing p with
  | nil => simp [testPoints_nil]
  | cons pt pts ih =>
    rw [testPoints_cons, ih, testPoint_eq]
    cases h : passable world (pt.x + p.m_velocity.x) pt.y pt.z <;> simp [h]

/-- Along `y`, the fold zeroes the component iff some point is blocked at the
original offset. -/
theorem testPoints_vy (world : ClientWorld K) (pts : List (Vec3 K)) (p : ClientPlayer K) :
    (testPoints world pts p).m_velocity.y =
      if ∃ pt ∈ pts, passable world pt.x (pt.y + p.m_velocity.y) pt.z = false then 0
      else p.m_velocity.y := by
  induction pts generalizing p with
  | nil => simp [testPoints_nil]
  | cons pt pts ih =>
    rw [testPoints_cons, ih, testPoint_eq]
    cases h : passable world pt.x (pt.y + p.m_velocity.y) pt.z <;> simp [h]

/-- Along `z`, the fold zeroes the component iff some point is blocked at the
original offset. -/
theorem testPoints_vz (world : ClientWorld K) (pts : List (Vec3 K)) (p : ClientPlayer K) :
    (testPoints world pts p).m_velocity.z =
      if ∃ pt ∈ pts, passable world pt.x pt.y (pt.z + p.m_velocity.z) = false then 0
      else p.m_velocity.z := by
  induction pts generalizing p with
  | nil => simp [testPoints_nil]
  | cons pt pts ih =>
    rw [testPoints_cons, ih, testPoint_eq]
    cases h : passable world pt.x pt.y (pt.z + p.m_velocity.z) <;> simp [h]

/-- The fold changes nothing but the velocity and the airborne flag. -/
theorem testPoints_frame (world : ClientWorld K) (pts : List (Vec3 K)) (p : ClientPlayer K) :
    testPoints world pts p =
      { p with m_velocity := (testPoints world pts p).m_velocity
               m_isJumping := (testPoints world pts p).m_isJumping } := by
  induction pts generalizing p with
  | nil => rfl
  | cons pt pts ih =>
    rw [testPoints_cons, ih, testPoint_eq]

/-- With a non-negative vertical velocity the fold never touches the airborne flag. -/
theorem testPoints_isJumping_of_nonneg (world : ClientWorld K) (pts : List (Vec3 K))
    (p : ClientPlayer K) (h : 0 ≤ p.m_velocity.z) :
    (testPoints world pts p).m_isJumping = p.m_isJumping := by
  induction pts generalizing p with
  | nil => rfl
  | cons pt pts ih =>
    rw [testPoints_cons, ih, testPoint_eq]
    · simp only []
      split_ifs with h1 h2
      · rfl
      · exact absurd h2 (not_lt.mpr h)
      · rfl
    · rw [testPoint_eq]
      simp only []
      split_ifs <;> simp [h]

/-- The code test `passable` fails exactly on present, non-air, collidable voxels. -/
theorem passable_eq_false_iff (world : ClientWorld K) (x y z : K) :
    passable world x y z = false ↔ world.solidAt x y z := by
  unfold passable ClientWorld.solidAt
  cases h : world.getBlockState ⌊x⌋ ⌊y⌋ ⌊z⌋ with
  | none => simp
  | some bs => simp

/-- The code test `passable` succeeds exactly off solid voxels. -/
theorem passable_eq_true_iff (world : ClientWorld K) (x y z : K) :
    passable world x y z = true ↔ ¬ world.solidAt x y z := by
  rw [← passable_eq_false_iff]; simp

/-- If the player is airborne and falling and some point is blocked vertically at
the original offset, the fold clears the airborne flag. -/
theorem testPoints_lands (world : ClientWorld K) (pts : List (Vec3 K)) (p : ClientPlayer K)
    (hj : p.m_isJumping = true) (hv : p.m_velocity.z < 0)
    (hb : ∃ pt ∈ pts, passable world pt.x pt.y (pt.z + p.m_velocity.z) = false) :
    (testPoints world pts p).m_isJumping = false := by
  induction pts generalizing p with
  | nil => simp at hb
  | cons pt pts ih =>
    rw [testPoints_cons]
    cases h : passable world pt.x pt.y (pt.z + p.m_velocity.z) with
    | false =>
      rw [testPoints_isJumping_of_nonneg]
      · rw [testPoint_eq]; simp [h, hv]
      · rw [testPoint_eq]; simp [h]
    | true =>
      have hz : (testPoint world pt.x pt.y pt.z p).m_velocity.z = p.m_velocity.z := by
        rw [testPoint_eq]; simp [h]
      have hj2 : (testPoint world pt.x pt.y pt.z p).m_isJumping = true := by
        rw [testPoint_eq]; simp [h, hj]
      apply ih _ hj2
      · rw [hz]; exact hv
      · rw [hz]
        obtain ⟨q, hq, hq2⟩ := hb
        rcases List.mem_cons.mp hq with rfl | hq
        · rw [h] at hq2; cases hq2
        · exact ⟨q, hq, hq2⟩

omit [FloorRing K] in
/-- Blocked-point existence over the sample list, phrased with boundary indices. -/
theorem exists_sample_iff (p : ClientPlayer K) (P : Vec3 K → Prop) :
    (∃ pt ∈ gridIndices.map (samplePoint p), P pt) ↔
      ∃ i, IsBoundaryIndex i ∧ P (samplePoint p i) := by
  constructor
  · rintro ⟨pt, hpt, h⟩
    obtain ⟨i, hi, rfl⟩ := List.mem_map.mp hpt
    exact ⟨i, (mem_gridIndices i).mp hi, h⟩
  · rintro ⟨i, hi, h⟩
    exact ⟨_, List.mem_map.mpr ⟨i, (mem_gridIndices i).mpr hi, rfl⟩, h⟩

/-- The three velocity components after `checkCollisions`, by boundary index. -/
theorem checkCollisions_velocity (world : ClientWorld K) (p : ClientPlayer K) :
    (((∃ i, IsBoundaryIndex i ∧ world.solidAt ((samplePoint p i).x + p.m_velocity.x)
          (samplePoint p i).y (samplePoint p i).z) →
        (checkCollisions world p).m_velocity.x = 0) ∧
      ((¬ ∃ i, IsBoundaryIndex i ∧ world.solidAt ((samplePoint p i).x + p.m_velocity.x)
          (samplePoint p i).y (samplePoint p i).z) →
        (checkCollisions world p).m_velocity.x = p.m_velocity.x)) ∧
    (((∃ i, IsBoundaryIndex i ∧ world.solidAt (samplePoint p i).x
          ((samplePoint p i).y + p.m_velocity.y) (samplePoint p i).z) →
        (checkCollisions world p).m_velocity.y = 0) ∧
      ((¬ ∃ i, IsBoundaryIndex i ∧ world.solidAt (samplePoint p i).x
          ((samplePoint p i).y + p.m_velocity.y) (samplePoint p i).z) →
        (checkCollisions world p).m_velocity.y = p.m_velocity.y)) ∧
    (((∃ i, IsBoundaryIndex i ∧ world.solidAt (samplePoint p i).x (samplePoint p i).y
          ((samplePoint p i).z + p.m_velocity.z)) →
        (checkCollisions world p).m_velocity.z = 0) ∧
      ((¬ ∃ i, IsBoundaryIndex i ∧ world.solidAt (samplePoint p i).x (samplePoint p i).y
          ((samplePoint p i).z + p.m_velocity.z)) →
        (checkCollisions world p).m_velocity.z = p.m_velocity.z)) := by
  have ex := exists_sample_iff p (fun pt => passable world (pt.x + p.m_velocity.x) pt.y pt.z = false)
  have ey := exists_sample_iff p (fun pt => passable world pt.x (pt.y + p.m_velocity.y) pt.z = false)
  have ez := exists_sample_iff p (fun pt => passable world pt.x pt.y (pt.z + p.m_velocity.z) = false)
  simp only [passable_eq_false_iff] at ex ey ez
  rw [checkCollisions_eq]
  refine ⟨⟨?_, ?_⟩, ⟨?_, ?_⟩, ⟨?_, ?_⟩⟩ <;> intro h
  · rw [testPoints_vx, if_pos]
    simpa only [passable_eq_false_iff] using ex.mpr h
  · rw [testPoints_vx, if_neg]
    simpa only [passable_eq_false_iff] using fun hh => h (ex.mp hh)
  · rw [testPoints_vy, if_pos]
    simpa only [passable_eq_false_iff] using ey.mpr h
  · rw [testPoints_vy, if_neg]
    simpa only [passable_eq_false_iff] using fun hh => h (ey.mp hh)
  · rw [testPoints_vz, if_pos]
    simpa only [passable_eq_false_iff] using ez.mpr h
  · rw [testPoints_vz, if_neg]
    simpa only [passable_eq_false_iff] using fun hh => h (ez.mp hh)

end CollisionLemmas

/-! ## Theorems: collision resolver -/

section CollisionTheorems

variable {K : Type} [LinearOrderedField K] [FloorRing K]

/-- C1 (amended): if all 26 hitbox sample points start in passable voxels, then
after `checkCollisions` no sample point displaced by the constrained velocity
along any single axis lies in a collidable, non-air voxel. -/
theorem checkCollisions_axiswise_free (world : ClientWorld K) (p : ClientPlayer K)
    (hstart : ∀ i, IsBoundaryIndex i →
      ¬ world.solidAt (samplePoint p i).x (samplePoint p i).y (samplePoint p i).z) :
    ∀ i, IsBoundaryIndex i →
      ¬ world.solidAt ((samplePoint p i).x + (checkCollisions world p).m_velocity.x)
          (samplePoint p i).y (samplePoint p i).z ∧
      ¬ world.solidAt (samplePoint p i).x
          ((samplePoint p i).y + (checkCollisions world p).m_velocity.y) (samplePoint p i).z ∧
      ¬ world.solidAt (samplePoint p i).x (samplePoint p i).y
          ((samplePoint p i).z + (checkCollisions world p).m_velocity.z) := by
  intro i hi
  obtain ⟨⟨hx1, hx2⟩, ⟨hy1, hy2⟩, ⟨hz1, hz2⟩⟩ := checkCollisions_velocity world p
  refine ⟨?_, ?_, ?_⟩
  · by_cases h : ∃ i, IsBoundaryIndex i ∧ world.solidAt ((samplePoint p i).x + p.m_velocity.x)
        (samplePoint p i).y (samplePoint p i).z
    · rw [hx1 h]; simpa using hstart i hi
    · rw [hx2 h]; exact fun hs => h ⟨i, hi, hs⟩
  · by_cases h : ∃ i, IsBoundaryIndex i ∧ world.solidAt (samplePoint p i).x
        ((samplePoint p i).y + p.m_velocity.y) (samplePoint p i).z
    · rw [hy1 h]; simpa using hstart i hi
    · rw [hy2 h]; exact fun hs => h ⟨i, hi, hs⟩
  · by_cases h : ∃ i, IsBoundaryIndex i ∧ world.solidAt (samplePoint p i).x (samplePoint p i).y
        ((samplePoint p i).z + p.m_velocity.z)
    · rw [hz1 h]; simpa using hstart i hi
    · rw [hz2 h]; exact fun hs => h ⟨i, hi, hs⟩

/-- In `cornerWorld`, every sample point of `cornerPlayer` starts in a passable voxel. -/
theorem cornerPlayer_starts_free : ∀ i, IsBoundaryIndex i →
    ¬ cornerWorld.solidAt (samplePoint cornerPlayer i).x (samplePoint cornerPlayer i).y
      (samplePoint cornerPlayer i).z := by
  intro i hi
  rw [← passable_eq_true_iff]
  have key : ∀ i ∈ gridIndices,
      passable cornerWorld (samplePoint cornerPlayer i).x (samplePoint cornerPlayer i).y
        (samplePoint cornerPlayer i).z = true := by decide!
  exact key i ((mem_gridIndices i).mpr hi)

/-- C1 (as stated) fails: in `cornerWorld` all 26 sample points of `cornerPlayer`
start in passable voxels and the velocity `(0.2, 0.2, 0)` passes every per-axis
test unchanged, yet the sample point `(2, 2, 0)` displaced by the whole
constrained velocity lies in the solid voxel `(1, 1, 0)`. -/
theorem checkCollisions_swept_counterexample :
    (∀ i, IsBoundaryIndex i →
      ¬ cornerWorld.solidAt (samplePoint cornerPlayer i).x (samplePoint cornerPlayer i).y
        (samplePoint cornerPlayer i).z) ∧
    (checkCollisions cornerWorld cornerPlayer).m_velocity = ⟨1 / 5, 1 / 5, 0⟩ ∧
    ∃ i, IsBoundaryIndex i ∧
      cornerWorld.solidAt
        ((samplePoint cornerPlayer i).x + (checkCollisions cornerWorld cornerPlayer).m_velocity.x)
        ((samplePoint cornerPlayer i).y + (checkCollisions cornerWorld cornerPlayer).m_velocity.y)
        ((samplePoint cornerPlayer i).z +
          (checkCollisions cornerWorld cornerPlayer).m_velocity.z) := by
  refine ⟨cornerPlayer_starts_free, ?_, (2, 2, 0), by decide, ?_⟩
  · ext <;> decide!
  · rw [← passable_eq_false_iff]
    decide!

/-- The amended C1 statement at `cornerWorld` and `cornerPlayer`. -/
theorem checkCollisions_axiswise_free_witness :
    (∀ i, IsBoundaryIndex i →
      ¬ cornerWorld.solidAt (samplePoint cornerPlayer i).x (samplePoint cornerPlayer i).y
        (samplePoint cornerPlayer i).z) ∧
    ∀ i, IsBoundaryIndex i →
      ¬ cornerWorld.solidAt
          ((samplePoint cornerPlayer i).x +
            (checkCollisions cornerWorld cornerPlayer).m_velocity.x)
          (samplePoint cornerPlayer i).y (samplePoint cornerPlayer i).z ∧
      ¬ cornerWorld.solidAt (samplePoint cornerPlayer i).x
          ((samplePoint cornerPlayer i).y +
            (checkCollisions cornerWorld cornerPlayer).m_velocity.y)
          (samplePoint cornerPlayer i).z ∧
      ¬ cornerWorld.solidAt (samplePoint cornerPlayer i).x (samplePoint cornerPlayer i).y
          ((samplePoint cornerPlayer i).z +
            (checkCollisions cornerWorld cornerPlayer).m_velocity.z) :=
  ⟨cornerPlayer_starts_free,
    checkCollisions_axiswise_free cornerWorld cornerPlayer cornerPlayer_starts_free⟩

/-- C2: `checkCollisions` leaves each velocity component unchanged or zero, and a
component ends at zero iff it was zero already or one of the 26 boundary sample
points, offset by the original component along that axis alone, lies in an
impassable voxel (present, non-zero block id, collidable). -/
theorem checkCollisions_axis_zero_iff (world : ClientWorld K) (p : ClientPlayer K) :
    ((checkCollisions world p).m_velocity.x = p.m_velocity.x ∨
      (checkCollisions world p).m_velocity.x = 0) ∧
    ((checkCollisions world p).m_velocity.y = p.m_velocity.y ∨
      (checkCollisions world p).m_velocity.y = 0) ∧
    ((checkCollisions world p).m_velocity.z = p.m_velocity.z ∨
      (checkCollisions world p).m_velocity.z = 0) ∧
    ((checkCollisions world p).m_velocity.x = 0 ↔
      p.m_velocity.x = 0 ∨ ∃ i, IsBoundaryIndex i ∧
        world.solidAt ((samplePoint p i).x + p.m_velocity.x)
          (samplePoint p i).y (samplePoint p i).z) ∧
    ((checkCollisions world p).m_velocity.y = 0 ↔
      p.m_velocity.y = 0 ∨ ∃ i, IsBoundaryIndex i ∧
        world.solidAt (samplePoint p i).x
          ((samplePoint p i).y + p.m_velocity.y) (samplePoint p i).z) ∧
    ((checkCollisions world p).m_velocity.z = 0 ↔
      p.m_velocity.z = 0 ∨ ∃ i, IsBoundaryIndex i ∧
        world.solidAt (samplePoint p i).x (samplePoint p i).y
          ((samplePoint p i).z + p.m_velocity.z)) := by
  obtain ⟨⟨hx1, hx2⟩, ⟨hy1, hy2⟩, ⟨hz1, hz2⟩⟩ := checkCollisions_velocity world p
  have hx : (checkCollisions world p).m_velocity.x = 0 ∨
      ((checkCollisions world p).m_velocity.x = p.m_velocity.x ∧
        ¬ ∃ i, IsBoundaryIndex i ∧ world.solidAt ((samplePoint p i).x + p.m_velocity.x)
          (samplePoint p i).y (samplePoint p i).z) := by
    by_cases h : ∃ i, IsBoundaryIndex i ∧ world.solidAt ((samplePoint p i).x + p.m_velocity.x)
        (samplePoint p i).y (samplePoint p i).z
    · exact Or.inl (hx1 h)
    · exact Or.inr ⟨hx2 h, h⟩
  have hy : (checkCollisions world p).m_velocity.y = 0 ∨
      ((checkCollisions world p).m_velocity.y = p.m_velocity.y ∧
        ¬ ∃ i, IsBoundaryIndex i ∧ world.solidAt (samplePoint p i).x
          ((samplePoint p i).y + p.m_velocity.y) (samplePoint p i).z) := by
    by_cases h : ∃ i, IsBoundaryIndex i ∧ world.solidAt (samplePoint p i).x
        ((samplePoint p i).y + p.m_velocity.y) (samplePoint p i).z
    · exact Or.inl (hy1 h)
    · exact Or.inr ⟨hy2 h, h⟩
  have hz : (checkCollisions world p).m_velocity.z = 0 ∨
      ((checkCollisions world p).m_velocity.z = p.m_velocity.z ∧
        ¬ ∃ i, IsBoundaryIndex i ∧ world.solidAt (samplePoint p i).x (samplePoint p i).y
          ((samplePoint p i).z + p.m_velocity.z)) := by
    by_cases h : ∃ i, IsBoundaryIndex i ∧ world.solidAt (samplePoint p i).x (samplePoint p i).y
        ((samplePoint p i).z + p.m_velocity.z)
    · exact Or.inl (hz1 h)
    · exact Or.inr ⟨hz2 h, h⟩
  refine ⟨?_, ?_, ?_, ?_, ?_, ?_⟩
  · rcases hx with h | ⟨h, _⟩
    · exact Or.inr h
    · exact Or.inl h
  · rcases hy with h | ⟨h, _⟩
    · exact Or.inr h
    · exact Or.inl h
  · rcases hz with h | ⟨h, _⟩
    · exact Or.inr h
    · exact Or.inl h
  · constructor
    · intro h0
      rcases hx with h | ⟨h, hn⟩
      · by_cases hb : ∃ i, IsBoundaryIndex i ∧
            world.solidAt ((samplePoint p i).x + p.m_velocity.x)
              (samplePoint p i).y (samplePoint p i).z
        · exact Or.inr hb
        · exact Or.inl ((hx2 hb).symm.trans h0)
      · exact Or.inl (h.symm.trans h0)
    · rintro (h0 | hb)
      · rcases hx with h | ⟨h, _⟩
        · exact h
        · exact h.trans h0
      · exact hx1 hb
  · constructor
    · intro h0
      rcases hy with h | ⟨h, hn⟩
      · by_cases hb : ∃ i, IsBoundaryIndex i ∧
            world.solidAt (samplePoint p i).x
              ((samplePoint p i).y + p.m_velocity.y) (samplePoint p i).z
        · exact Or.inr hb
        · exact Or.inl ((hy2 hb).symm.trans h0)
      · exact Or.inl (h.symm.trans h0)
    · rintro (h0 | hb)
      · rcases hy with h | ⟨h, _⟩
        · exact h
        · exact h.trans h0
      · exact hy1 hb
  · constructor
    · intro h0
      rcases hz with h | ⟨h, hn⟩
      · by_cases hb : ∃ i, IsBoundaryIndex i ∧
            world.solidAt (samplePoint p i).x (samplePoint p i).y
              ((samplePoint p i).z + p.m_velocity.z)
        · exact Or.inr hb
        · exact Or.inl ((hz2 hb).symm.trans h0)
      · exact Or.inl (h.symm.trans h0)
    · rintro (h0 | hb)
      · rcases hz with h | ⟨h, _⟩
        · exact h
        · exact h.trans h0
      · exact hz1 hb

/-- C3: over a flat floor (voxels below height 0 collidable and non-air, voxels at
height 0 or above air), for an airborne player whose hitbox bottom is at height
`≥ 0` and whose vertical velocity `vz < 0` takes the bottom below 0,
`checkCollisions` sets the vertical velocity to 0 and clears the airborne flag. -/
theorem checkCollisions_lands_on_floor (world : ClientWorld K) (p : ClientPlayer K)
    (hfloor : world.FlatFloor) (_hbottom : 0 ≤ hitboxBottom p)
    (hair : p.m_isJumping = true) (hvz : p.m_velocity.z < 0)
    (hcross : hitboxBottom p + p.m_velocity.z < 0) :
    (checkCollisions world p).m_velocity.z = 0 ∧
      (checkCollisions world p).m_isJumping = false := by
  have hblocked : ∃ pt ∈ gridIndices.map (samplePoint p),
      passable world pt.x pt.y (pt.z + p.m_velocity.z) = false := by
    rw [exists_sample_iff]
    simp only [passable_eq_false_iff]
    have hsolid : ∀ x y z : K, z < 0 → world.solidAt x y z := by
      intro x y z hz
      exact hfloor.1 ⌊x⌋ ⌊y⌋ ⌊z⌋ (Int.floor_lt.mpr (by simpa using hz))
    by_cases hs : 0 ≤ p.m_hitbox.sizeZ
    · refine ⟨(0, 0, 0), by decide, hsolid _ _ _ ?_⟩
      have : hitboxBottom p = p.m_z + p.m_hitbox.z := by
        simp [hitboxBottom, min_eq_left hs]
      simpa [samplePoint, this] using hcross
    · refine ⟨(0, 0, 2), by decide, hsolid _ _ _ ?_⟩
      have : hitboxBottom p = p.m_z + p.m_hitbox.z + p.m_hitbox.sizeZ := by
        simp [hitboxBottom, min_eq_right (le_of_not_le hs)]
      simpa [samplePoint, lastPoint, numPointsPerEdge, this] using hcross
  rw [checkCollisions_eq]
  refine ⟨?_, testPoints_lands world _ p hair hvz hblocked⟩
  rw [testPoints_vz, if_pos hblocked]

/-- The example floor world is a flat floor. -/
theorem floorWorld_flatFloor : floorWorld.FlatFloor := by
  constructor
  · intro x y z hz
    exact ⟨stone, by simp [floorWorld, hz], by decide, rfl⟩
  · intro x y z hz
    exact ⟨air, by simp [floorWorld, not_lt.mpr hz], rfl⟩

/-- The landing statement at `floorWorld` and `fallingPlayer`. -/
theorem checkCollisions_lands_on_floor_witness :
    floorWorld.FlatFloor ∧ 0 ≤ hitboxBottom fallingPlayer ∧
    fallingPlayer.m_isJumping = true ∧ fallingPlayer.m_velocity.z < 0 ∧
    hitboxBottom fallingPlayer + fallingPlayer.m_velocity.z < 0 ∧
    (checkCollisions floorWorld fallingPlayer).m_velocity.z = 0 ∧
    (checkCollisions floorWorld fallingPlayer).m_isJumping = false :=
  ⟨floorWorld_flatFloor, by decide!, rfl, by decide!, by decide!,
    checkCollisions_lands_on_floor floorWorld fallingPlayer floorWorld_flatFloor
      (by decide!) rfl (by decide!) (by decide!)⟩

end CollisionTheorems

/-! ## Lemmas and theorems: motion controller -/

section MotionTheorems

variable {K : Type} [LinearOrderedField K] [FloorRing K]

omit [FloorRing K] in
/-- The speed cap is not written by `move`. -/
@[simp] theorem move_maxSpeed (m : Libm K) (d : K) (p : ClientPlayer K) :
    (move m d p).maxSpeed = p.maxSpeed := by
  unfold move
  simp only []
  split_ifs <;> rfl

omit [FloorRing K] in
/-- The speed cap after `processInputs` is the one selected from the keys. -/
theorem processInputs_maxSpeed (m : Libm K) (keys : GameKey → Bool) (p : ClientPlayer K) :
    (processInputs m keys p).maxSpeed = selectMaxSpeed keys := by
  unfold processInputs
  cases keys GameKey.Forward <;> cases keys GameKey.Back <;> cases keys GameKey.Left <;>
    cases keys GameKey.Right <;> simp [applyVelocity, applyFriction]

omit [FloorRing K] in
/-- C4 (what the code does): with Sprint and Sneak both pressed, `processInputs`
sets the maximum horizontal speed to the sprint value 0.05, not the sneak value
0.01; sprint alone gives 0.05, sneak alone 0.01, neither 0.03. -/
theorem processInputs_sprint_and_sneak (m : Libm K) (keys : GameKey → Bool)
    (p : ClientPlayer K) :
    (keys GameKey.Sprint = true → keys GameKey.Sneak = true →
      (processInputs m keys p).maxSpeed = 0.05 ∧ (processInputs m keys p).maxSpeed ≠ 0.01) ∧
    (keys GameKey.Sprint = true → keys GameKey.Sneak = false →
      (processInputs m keys p).maxSpeed = 0.05) ∧
    (keys GameKey.Sprint = false → keys GameKey.Sneak = true →
      (processInputs m keys p).maxSpeed = 0.01) ∧
    (keys GameKey.Sprint = false → keys GameKey.Sneak = false →
      (processInputs m keys p).maxSpeed = 0.03) := by
  rw [processInputs_maxSpeed]
  unfold selectMaxSpeed
  refine ⟨?_, ?_, ?_, ?_⟩ <;> intro h1 h2 <;> simp only [h1, h2, if_true] <;> norm_num

/-- The player part of `updatePosition` is the composition of its four stages. -/
theorem updatePosition_fst (cfg : Config) (world : ClientWorld K) (p : ClientPlayer K)
    (g : GameConfig K) :
    (updatePosition cfg world (p, g)).1 =
      commitStage cfg (dampStage cfg (collisionStage cfg world (gravityStage cfg world p))) :=
  rfl

/-- The speed selection at `sprintSneakKeys`: Sprint and Sneak pressed give 0.05. -/
theorem processInputs_sprint_and_sneak_witness :
    sprintSneakKeys GameKey.Sprint = true ∧ sprintSneakKeys GameKey.Sneak = true ∧
    (processInputs stubLibm sprintSneakKeys cornerPlayer).maxSpeed = 0.05 ∧
    (processInputs stubLibm sprintSneakKeys cornerPlayer).maxSpeed ≠ 0.01 :=
  ⟨rfl, rfl, (processInputs_sprint_and_sneak stubLibm sprintSneakKeys cornerPlayer).1 rfl rfl⟩

/-- With zero velocity the collision resolver changes nothing. -/
theorem checkCollisions_zero_velocity (world : ClientWorld K) (p : ClientPlayer K)
    (h : p.m_velocity = ⟨0, 0, 0⟩) : checkCollisions world p = p := by
  have hz : (0 : K) ≤ p.m_velocity.z := by rw [h]
  rw [checkCollisions_eq, testPoints_frame]
  have hv : (testPoints world (gridIndices.map (samplePoint p)) p).m_velocity = p.m_velocity := by
    ext
    · rw [testPoints_vx]; simp [h]
    · rw [testPoints_vy]; simp [h]
    · rw [testPoints_vz]; simp [h]
  rw [hv, testPoints_isJumping_of_nonneg world _ p hz]

/-- C6: with no-clip disabled, when the chunk at the player's position is absent
or not initialized, `updatePosition` leaves the position and the airborne flag
unchanged and ends with all three velocity components zero, whatever the
incoming velocity, hitbox, fly-mode setting and block content. -/
theorem updatePosition_unloaded_holds (cfg : Config) (world : ClientWorld K)
    (p : ClientPlayer K) (g : GameConfig K)
    (hclip : cfg.isNoClipEnabled = false)
    (hchunk : ∀ c, world.getChunkAtBlockPos (toInt p.m_x) (toInt p.m_y) (toInt p.m_z) = some c →
      c.isInitialized = false) :
    (updatePosition cfg world (p, g)).1.m_x = p.m_x ∧
    (updatePosition cfg world (p, g)).1.m_y = p.m_y ∧
    (updatePosition cfg world (p, g)).1.m_z = p.m_z ∧
    (updatePosition cfg world (p, g)).1.m_isJumping = p.m_isJumping ∧
    (updatePosition cfg world (p, g)).1.m_velocity = ⟨0, 0, 0⟩ := by
  have hstage : gravityStage cfg world p = { p with m_velocity := ⟨0, 0, 0⟩ } := by
    unfold gravityStage
    cases hc : world.getChunkAtBlockPos (toInt p.m_x) (toInt p.m_y) (toInt p.m_z) with
    | none => simp [hclip]
    | some c => simp [hclip, hchunk c hc]
  have hcoll : collisionStage cfg world (gravityStage cfg world p) =
      { p with m_velocity := ⟨0, 0, 0⟩ } := by
    rw [hstage]
    unfold collisionStage
    rw [checkCollisions_zero_velocity world _ rfl]
    simp
  rw [updatePosition_fst, hcoll]
  cases cfg.isFlyModeEnabled <;> simp [dampStage, commitStage, setPosition]

/-- The unloaded-chunk statement at `unloadedWorld` and `cornerPlayer`. -/
theorem updatePosition_unloaded_holds_witness :
    defaultConfig.isNoClipEnabled = false ∧
    (∀ c, unloadedWorld.getChunkAtBlockPos (toInt cornerPlayer.m_x) (toInt cornerPlayer.m_y)
      (toInt cornerPlayer.m_z) = some c → c.isInitialized = false) ∧
    (updatePosition defaultConfig unloadedWorld (cornerPlayer, restGameConfig)).1.m_x =
      cornerPlayer.m_x ∧
    (updatePosition defaultConfig unloadedWorld (cornerPlayer, restGameConfig)).1.m_y =
      cornerPlayer.m_y ∧
    (updatePosition defaultConfig unloadedWorld (cornerPlayer, restGameConfig)).1.m_z =
      cornerPlayer.m_z ∧
    (updatePosition defaultConfig unloadedWorld (cornerPlayer, restGameConfig)).1.m_isJumping =
      cornerPlayer.m_isJumping ∧
    (updatePosition defaultConfig unloadedWorld (cornerPlayer, restGameConfig)).1.m_velocity =
      ⟨0, 0, 0⟩ :=
  ⟨rfl, fun _ h => Option.noConfusion h,
    updatePosition_unloaded_holds defaultConfig unloadedWorld cornerPlayer restGameConfig rfl
      (fun _ h => Option.noConfusion h)⟩

/-- With no-clip enabled, the committed position is the old position plus the
velocity after the gravity step and the airborne damping only. -/
theorem updatePosition_noClip_position (cfg : Config) (world : ClientWorld K)
    (p : ClientPlayer K) (g : GameConfig K) (hclip : cfg.isNoClipEnabled = true) :
    (updatePosition cfg world (p, g)).1.m_x =
        p.m_x + (noClipVelocity cfg (readyGravity world p) p).x ∧
    (updatePosition cfg world (p, g)).1.m_y =
        p.m_y + (noClipVelocity cfg (readyGravity world p) p).y ∧
    (updatePosition cfg world (p, g)).1.m_z =
        p.m_z + (noClipVelocity cfg (readyGravity world p) p).z := by
  rw [updatePosition_fst]
  have hcoll : ∀ q, collisionStage cfg world q = q := by
    intro q; simp [collisionStage, hclip]
  rw [hcoll]
  unfold gravityStage readyGravity noClipVelocity
  cases hc : world.getChunkAtBlockPos (toInt p.m_x) (toInt p.m_y) (toInt p.m_z) with
  | none =>
    cases hf : cfg.isFlyModeEnabled <;> by_cases hz : p.m_velocity.z = 0 <;>
      simp [hclip, hf, hz, dampStage, commitStage, setPosition]
  | some c =>
    cases hi : c.isInitialized
    · cases hf : cfg.isFlyModeEnabled <;> by_cases hz : p.m_velocity.z = 0 <;>
        simp [hclip, hi, hf, hz, dampStage, commitStage, setPosition]
    · cases hf : cfg.isFlyModeEnabled
      · have hmax : (if p.m_velocity.z - c.gravity * 0.001 < -p.m_jumpSpeed then -p.m_jumpSpeed
            else p.m_velocity.z - c.gravity * 0.001) =
            max (p.m_velocity.z - c.gravity * 0.001) (-p.m_jumpSpeed) := by
          split_ifs with h
          · exact (max_eq_right (le_of_lt h)).symm
          · exact (max_eq_left (not_lt.mp h)).symm
        simp only [hi, hmax, Bool.not_false, if_true, dampStage, commitStage, setPosition,
          Bool.true_and, decide_eq_true_eq, Bool.false_eq_true, if_false, true_and, ne_eq]
        by_cases hz : max (p.m_velocity.z - c.gravity * 0.001) (-p.m_jumpSpeed) = 0
        · simp [hz, hf]
        · simp [hz, hf]
      · by_cases hz : p.m_velocity.z = 0 <;>
          simp [hi, hf, hz, dampStage, commitStage, setPosition]

/-- C5: with no-clip enabled, for two worlds that agree on chunk readiness and
gravity at the player's position but differ arbitrarily in block occupancy,
`updatePosition` commits the same position: the old position plus the velocity
after only the gravity step and the 0.75 airborne damping (no zeroing for an
unloaded chunk, no collision resolver). -/
theorem updatePosition_noClip_ignores_blocks (cfg : Config) (world₁ world₂ : ClientWorld K)
    (p : ClientPlayer K) (g₁ g₂ : GameConfig K)
    (hclip : cfg.isNoClipEnabled = true)
    (hready : readyGravity world₁ p = readyGravity world₂ p) :
    ((updatePosition cfg world₁ (p, g₁)).1.m_x = (updatePosition cfg world₂ (p, g₂)).1.m_x ∧
      (updatePosition cfg world₁ (p, g₁)).1.m_y = (updatePosition cfg world₂ (p, g₂)).1.m_y ∧
      (updatePosition cfg world₁ (p, g₁)).1.m_z = (updatePosition cfg world₂ (p, g₂)).1.m_z) ∧
    (updatePosition cfg world₁ (p, g₁)).1.m_x =
        p.m_x + (noClipVelocity cfg (readyGravity world₁ p) p).x ∧
    (updatePosition cfg world₁ (p, g₁)).1.m_y =
        p.m_y + (noClipVelocity cfg (readyGravity world₁ p) p).y ∧
    (updatePosition cfg world₁ (p, g₁)).1.m_z =
        p.m_z + (noClipVelocity cfg (readyGravity world₁ p) p).z := by
  obtain ⟨a1, a2, a3⟩ := updatePosition_noClip_position cfg world₁ p g₁ hclip
  obtain ⟨b1, b2, b3⟩ := updatePosition_noClip_position cfg world₂ p g₂ hclip
  refine ⟨⟨?_, ?_, ?_⟩, a1, a2, a3⟩
  · rw [a1, b1, hready]
  · rw [a2, b2, hready]
  · rw [a3, b3, hready]

/-- The no-clip statement at `cornerWorld`, `floorWorld` and `cornerPlayer`. -/
theorem updatePosition_noClip_ignores_blocks_witness :
    noClipConfig.isNoClipEnabled = true ∧
    readyGravity cornerWorld cornerPlayer = readyGravity floorWorld cornerPlayer ∧
    (updatePosition noClipConfig cornerWorld (cornerPlayer, restGameConfig)).1.m_x =
      (updatePosition noClipConfig floorWorld (cornerPlayer, restGameConfig)).1.m_x :=
  ⟨rfl, rfl,
    (updatePosition_noClip_ignores_blocks noClipConfig cornerWorld floorWorld cornerPlayer
      restGameConfig restGameConfig rfl rfl).1.1⟩

end MotionTheorems

/-! ## Lemmas and theorems: target selector -/

section CursorTheorems

variable {K : Type} [LinearOrderedField K] [FloorRing K]

/-- The code test `block && block->id()` against the voxel being present and non-air. -/
theorem nonAir_iff (world : World) (x y z : Int) :
    world.nonAir x y z = true ↔ world.IsNonAir (x, y, z) := by
  unfold World.nonAir World.IsNonAir
  cases h : world.getBlock x y z with
  | none => simp
  | some b => simp

/-- Values of the binary32 rounding: `0.1f`, a value kept as it is, and ties going
to the even significand. -/
theorem roundF32_values :
    roundF32 (1 / 10) = 13421773 / 134217728 ∧ roundF32 (1 / 3) = 11184811 / 33554432 ∧
    roundF32 (-1 / 16777216) = -1 / 16777216 ∧ roundF32 16777217 = 16777216 ∧
    roundF32 16777219 = 16777220 ∧ roundF32 (2 - 1 / 16777216) = 2 ∧
    roundF32 (roundF32 (1 / 10)) = roundF32 (1 / 10) := by
  decide!

omit [FloorRing K] in
/-- Point 0 of the closed form is the position. -/
theorem rayPoint_zero (pos la : Vec3 K) : rayPoint pos la 0 = pos := by
  ext <;> simp [rayPoint]

omit [FloorRing K] in
/-- Adding `lookAt * 0.1` moves from point `j` of the closed form to point `j + 1`. -/
theorem rayPoint_succ (pos la : Vec3 K) (j : Nat) :
    (⟨(rayPoint pos la j).x + la.x * 0.1, (rayPoint pos la j).y + la.y * 0.1,
      (rayPoint pos la j).z + la.z * 0.1⟩ : Vec3 K) = rayPoint pos la (j + 1) := by
  ext <;> simp only [rayPoint] <;> push_cast <;> ring

omit [FloorRing K] in
/-- In exact arithmetic the samples of the loop are the points of the closed form
`position + k * 0.1 * lookAt`. -/
theorem raySample_exact (pos la : Vec3 K) (k : Nat) :
    raySample exactFloat pos la k = rayPoint pos la k := by
  induction k with
  | zero => rw [rayPoint_zero]; rfl
  | succ k ih =>
    rw [← rayPoint_succ, ← ih]
    rfl

/-- One iteration of the ray loop. -/
theorem rayLoop_step (fl : FloatModel K) (world : World) (pos la : Vec3 K) (n j : Nat)
    (prev : Vec3 K) :
    rayLoop fl world la (n + 1) (raySample fl pos la j) prev =
      if world.nonAir ⌊(raySample fl pos la (j + 1)).x⌋ ⌊(raySample fl pos la (j + 1)).y⌋
          ⌊(raySample fl pos la (j + 1)).z⌋ then
        (raySample fl pos la (j + 1), raySample fl pos la j)
      else rayLoop fl world la n (raySample fl pos la (j + 1)) (raySample fl pos la j) :=
  rfl

/-- The ray loop stops at the first sample whose voxel is non-air, or at the last
sample; it returns that sample and the one before it. -/
theorem rayLoop_spec (fl : FloatModel K) (world : World) (pos la : Vec3 K) (n j : Nat)
    (prev : Vec3 K) :
    ∃ k, j < k ∧ k ≤ j + (n + 1) ∧
      rayLoop fl world la (n + 1) (raySample fl pos la j) prev =
        (raySample fl pos la k, raySample fl pos la (k - 1)) ∧
      (∀ i, j < i → i < k → ¬ world.IsNonAir (voxelOf (raySample fl pos la i))) ∧
      (world.IsNonAir (voxelOf (raySample fl pos la k)) ∨ k = j + (n + 1)) := by
  induction n generalizing j prev with
  | zero =>
    refine ⟨j + 1, by omega, by omega, ?_, fun i h1 h2 => by omega, Or.inr rfl⟩
    rw [rayLoop_step]
    simp [rayLoop]
  | succ n ih =>
    rw [rayLoop_step]
    by_cases hit : world.IsNonAir (voxelOf (raySample fl pos la (j + 1)))
    · refine ⟨j + 1, by omega, by omega, ?_, fun i h1 h2 => by omega, Or.inl hit⟩
      rw [if_pos ((nonAir_iff world _ _ _).mpr hit)]
      simp
    · obtain ⟨k, h1, h2, h3, h4, h5⟩ := ih (j + 1) (raySample fl pos la j)
      refine ⟨k, by omega, by omega, ?_, ?_, ?_⟩
      · rw [if_neg (fun h => hit ((nonAir_iff world _ _ _).mp h))]
        exact h3
      · intro i hi1 hi2
        by_cases hij : i = j + 1
        · rw [hij]; exact hit
        · exact h4 i (by omega) hi2
      · rcases h5 with h | h
        · exact Or.inl h
        · exact Or.inr (by omega)

/-- The ray-march branch of `findSelectedBlock`, read off the result of the loop. -/
theorem findSelectedBlock_false_eq (fl : FloatModel K) (world : World) (cam : CursorCamera K)
    (objCoord : Vec3 K) :
    findSelectedBlock fl world cam objCoord false =
      (fun r : Vec3 K × Vec3 K =>
        if world.nonAir ⌊r.1.x⌋ ⌊r.1.y⌋ ⌊r.1.z⌋ then
          (⟨⌊r.1.x⌋, ⌊r.1.y⌋, ⌊r.1.z⌋, faceBetween (voxelOf r.2) (voxelOf r.1)⟩ : Selection)
        else ⟨99999, 99999, 99999, faceBetween (voxelOf r.2) (voxelOf r.1)⟩)
      (rayLoop fl world (cameraLookAt fl cam) 100 (cameraPosition fl cam)
        (cameraPosition fl cam)) :=
  rfl

/-- The ray march of `findSelectedBlock`: sample `k` is the first whose voxel is
non-air (or `k = 100`), and the result is read off samples `k` and `k - 1`. -/
theorem rayMarch_result (fl : FloatModel K) (world : World) (cam : CursorCamera K)
    (objCoord : Vec3 K) :
    ∃ k, 1 ≤ k ∧ k ≤ 100 ∧
      (∀ i, 1 ≤ i → i < k → ¬ world.IsNonAir (sampleVoxel fl cam i)) ∧
      ((world.IsNonAir (sampleVoxel fl cam k) ∧
          (findSelectedBlock fl world cam objCoord false).coord = sampleVoxel fl cam k) ∨
        (¬ world.IsNonAir (sampleVoxel fl cam k) ∧
          k = 100 ∧ (findSelectedBlock fl world cam objCoord false).coord = sentinel)) ∧
      (findSelectedBlock fl world cam objCoord false).w =
        faceBetween (sampleVoxel fl cam (k - 1)) (sampleVoxel fl cam k) := by
  obtain ⟨k, h1, h2, h3, h4, h5⟩ :=
    rayLoop_spec fl world (cameraPosition fl cam) (cameraLookAt fl cam) 99 0
      (cameraPosition fl cam)
  have h3' : rayLoop fl world (cameraLookAt fl cam) 100 (cameraPosition fl cam)
      (cameraPosition fl cam) =
      (raySample fl (cameraPosition fl cam) (cameraLookAt fl cam) k,
        raySample fl (cameraPosition fl cam) (cameraLookAt fl cam) (k - 1)) := h3
  rw [findSelectedBlock_false_eq, h3']
  simp only [sampleVoxel]
  refine ⟨k, by omega, by omega, fun i hi1 hi2 => h4 i (by omega) hi2, ?_, ?_⟩
  · by_cases hit : world.IsNonAir
        (voxelOf (raySample fl (cameraPosition fl cam) (cameraLookAt fl cam) k))
    · left
      refine ⟨hit, ?_⟩
      rw [if_pos ((nonAir_iff world _ _ _).mpr hit)]
      rfl
    · right
      refine ⟨hit, ?_, ?_⟩
      · rcases h5 with h | h
        · exact absurd h hit
        · omega
      · rw [if_neg (fun h => hit ((nonAir_iff world _ _ _).mp h))]
        rfl
  · split_ifs <;> rfl

/-- The hit of a ray march is unique and fixes the returned selection. -/
theorem firstHit_result (fl : FloatModel K) (world : World) (cam : CursorCamera K)
    (objCoord : Vec3 K) (k : Nat) (hk : FirstHit fl world cam k) :
    (findSelectedBlock fl world cam objCoord false).coord = sampleVoxel fl cam k ∧
    (findSelectedBlock fl world cam objCoord false).w =
      faceBetween (sampleVoxel fl cam (k - 1)) (sampleVoxel fl cam k) := by
  obtain ⟨hk1, hk2, hhit, hfirst⟩ := hk
  obtain ⟨k', h1, h2, h3, h4, h5⟩ := rayMarch_result fl world cam objCoord
  have hkk : k' = k := by
    rcases Nat.lt_trichotomy k' k with hlt | heq | hgt
    · rcases h4 with ⟨hit, _⟩ | ⟨_, h100, _⟩
      · exact absurd hit (hfirst k' h1 hlt)
      · omega
    · exact heq
    · exact absurd hhit (h3 k hk1 hgt)
  subst hkk
  refine ⟨?_, h5⟩
  rcases h4 with ⟨_, hc⟩ | ⟨hno, _, _⟩
  · exact hc
  · exact absurd hhit hno

/-- A selection other than the sentinel comes from a hit. -/
theorem firstHit_of_ne_sentinel (fl : FloatModel K) (world : World) (cam : CursorCamera K)
    (objCoord : Vec3 K)
    (hne : (findSelectedBlock fl world cam objCoord false).coord ≠ sentinel) :
    ∃ k, FirstHit fl world cam k := by
  obtain ⟨k, h1, h2, h3, h4, _⟩ := rayMarch_result fl world cam objCoord
  rcases h4 with ⟨hit, _⟩ | ⟨_, _, hc⟩
  · exact ⟨k, h1, h2, hit, h3⟩
  · exact absurd hc hne

omit [LinearOrderedField K] [FloorRing K] in
/-- The face chain yields a value in `-1..5`. -/
theorem faceBetween_range (a b : Int × Int × Int) :
    -1 ≤ faceBetween a b ∧ faceBetween a b ≤ 5 := by
  unfold faceBetween
  split_ifs <;> omega

omit [LinearOrderedField K] [FloorRing K] in
/-- The face chain yields `-1` exactly when the two voxels coincide. -/
theorem faceBetween_eq_neg_one_iff (a b : Int × Int × Int) :
    faceBetween a b = -1 ↔ a = b := by
  obtain ⟨a1, a2, a3⟩ := a
  obtain ⟨b1, b2, b3⟩ := b
  simp only [faceBetween]
  split_ifs <;> constructor <;> intro h <;>
    first
    | exact h.elim
    | omega
    | (simp only [Prod.mk.injEq] at h; omega)
    | (simp only [Prod.mk.injEq]; omega)

/-- In exact arithmetic, along the `+x` axis from the origin, sample `i` lies in
voxel `(i / 10, 0, 0)`. -/
theorem sampleVoxel_exact_x (i : Nat) :
    sampleVoxel exactFloat (⟨0, 0, 0, 1, 0, 0⟩ : CursorCamera K) i =
      (((i / 10 : Nat) : Int), 0, 0) := by
  have h : ⌊(i : K) * 0.1⌋ = ((i / 10 : Nat) : Int) := by
    have e : (i : K) * 0.1 = (i : K) / ((10 : Nat) : K) := by push_cast; ring
    rw [e, ← Nat.floor_div_eq_div (α := K) i 10, Int.natCast_floor_eq_floor]
    positivity
  rw [sampleVoxel, raySample_exact]
  simp [voxelOf, rayPoint, cameraPosition, cameraLookAt, exactFloat, h]

/-- C7: in exact arithmetic, for a world whose only non-air voxel is `(5, 0, 0)`,
a camera at the origin and look vector `(1, 0, 0)`, the ray march returns
coordinate `(5, 0, 0)` with face 3, the face whose placement neighbour in
`onEvent` is `(4, 0, 0)`. -/
theorem findSelectedBlock_single_voxel (world : World) (objCoord : Vec3 K)
    (honly : ∀ v, world.IsNonAir v ↔ v = (5, 0, 0)) :
    findSelectedBlock exactFloat world (⟨0, 0, 0, 1, 0, 0⟩ : CursorCamera K) objCoord false =
      ⟨5, 0, 0, 3⟩ ∧
    onEvent (findSelectedBlock exactFloat world (⟨0, 0, 0, 1, 0, 0⟩ : CursorCamera K)
      objCoord false) rightClick = [⟨4, 0, 0, 1⟩] := by
  have hhit : FirstHit exactFloat world (⟨0, 0, 0, 1, 0, 0⟩ : CursorCamera K) 50 := by
    refine ⟨by norm_num, by norm_num, ?_, fun i _ hi => ?_⟩
    · rw [sampleVoxel_exact_x, honly]; rfl
    · rw [sampleVoxel_exact_x, honly]
      simp only [Prod.mk.injEq, and_true]
      omega
  obtain ⟨hc, hw⟩ := firstHit_result exactFloat world _ objCoord 50 hhit
  rw [sampleVoxel_exact_x] at hc
  rw [sampleVoxel_exact_x, sampleVoxel_exact_x] at hw
  have hsel : findSelectedBlock exactFloat world (⟨0, 0, 0, 1, 0, 0⟩ : CursorCamera K)
      objCoord false = ⟨5, 0, 0, 3⟩ := by
    have hw3 : (findSelectedBlock exactFloat world (⟨0, 0, 0, 1, 0, 0⟩ : CursorCamera K)
        objCoord false).w = 3 := by rw [hw]; decide
    revert hc hw3
    generalize findSelectedBlock exactFloat world (⟨0, 0, 0, 1, 0, 0⟩ : CursorCamera K)
      objCoord false = s
    obtain ⟨sx, sy, sz, sw⟩ := s
    simp only [Selection.coord, Prod.mk.injEq, Selection.mk.injEq]
    norm_num
    intro a b c d
    exact ⟨a, b, c, d⟩
  rw [hsel]
  exact ⟨rfl, by decide⟩

/-- The only non-air voxel of `singleVoxelWorld` is `(5, 0, 0)`. -/
theorem singleVoxelWorld_only : ∀ v, singleVoxelWorld.IsNonAir v ↔ v = (5, 0, 0) := by
  rintro ⟨x, y, z⟩
  simp only [World.IsNonAir, singleVoxelWorld, Prod.mk.injEq]
  constructor
  · rintro ⟨b, hb, _⟩
    by_contra hne
    rw [if_neg hne] at hb
    cases hb
  · intro h
    exact ⟨⟨1⟩, by rw [if_pos h], by decide⟩

/-- The single-voxel statement at `singleVoxelWorld` over `ℚ`; single-precision
arithmetic gives the same selection on this input. -/
theorem findSelectedBlock_single_voxel_witness :
    (∀ v, singleVoxelWorld.IsNonAir v ↔ v = (5, 0, 0)) ∧
    findSelectedBlock exactFloat singleVoxelWorld (⟨0, 0, 0, 1, 0, 0⟩ : CursorCamera ℚ)
      ⟨0, 0, 0⟩ false = ⟨5, 0, 0, 3⟩ ∧
    findSelectedBlock ieeeFloat singleVoxelWorld (⟨0, 0, 0, 1, 0, 0⟩ : CursorCamera ℚ)
      ⟨0, 0, 0⟩ false = ⟨5, 0, 0, 3⟩ :=
  ⟨singleVoxelWorld_only,
    (findSelectedBlock_single_voxel singleVoxelWorld (⟨0, 0, 0⟩ : Vec3 ℚ)
      singleVoxelWorld_only).1, by decide!⟩

/-- C8 (as stated) fails in single precision: with only voxel `(5, 0, 0)` non-air,
the camera at the origin and look vector `(1, 203/1024, 0)`, the point
`camera + 50 * 0.1 * lookAt` lies in the non-air voxel `(5, 0, 0)`, yet the loop,
whose 50th sample has `x` just below 5, returns the sentinel. -/
theorem findSelectedBlock_float_counterexample :
    singleVoxelWorld.IsNonAir
      (voxelOf (rayPoint (cameraPosition exactFloat slantCamera)
        (cameraLookAt exactFloat slantCamera) 50)) ∧
    sampleVoxel ieeeFloat slantCamera 50 = (4, 0, 0) ∧
    sampleVoxel ieeeFloat slantCamera 51 = (5, 1, 0) ∧
    (findSelectedBlock ieeeFloat singleVoxelWorld slantCamera ⟨0, 0, 0⟩ false).coord =
      sentinel := by
  refine ⟨?_, by decide!, by decide!, by decide!⟩
  rw [singleVoxelWorld_only]
  decide!

/-- C8 (amended): the ray march returns the voxel of its `k`-th sample for the
smallest `k` in `1..100` whose voxel is present and non-air, where sample 0 is
the camera position and each sample is the previous one plus `lookAt * 0.1f`
computed in single precision, and the sentinel `(99999, 99999, 99999)` if there
is no such `k`; a non-sentinel result is always a non-air voxel.  In exact
arithmetic sample `k` is `camera + k * 0.1 * lookAt`. -/
theorem findSelectedBlock_rayMarch_first_hit (fl : FloatModel K) (world : World)
    (cam : CursorCamera K) (objCoord : Vec3 K) :
    ((∃ k, 1 ≤ k ∧ k ≤ 100 ∧ world.IsNonAir (sampleVoxel fl cam k) ∧
        (∀ i, 1 ≤ i → i < k → ¬ world.IsNonAir (sampleVoxel fl cam i)) ∧
        (findSelectedBlock fl world cam objCoord false).coord = sampleVoxel fl cam k) ∨
      ((∀ k, 1 ≤ k → k ≤ 100 → ¬ world.IsNonAir (sampleVoxel fl cam k)) ∧
        (findSelectedBlock fl world cam objCoord false).coord = sentinel)) ∧
    ((findSelectedBlock fl world cam objCoord false).coord ≠ sentinel →
      world.IsNonAir (findSelectedBlock fl world cam objCoord false).coord) ∧
    (∀ k, sampleVoxel exactFloat cam k =
      voxelOf (rayPoint (⟨cam.x, cam.y, cam.z⟩ : Vec3 K)
        ⟨cam.pointTargetedX - cam.x, cam.pointTargetedY - cam.y,
          cam.pointTargetedZ - cam.z⟩ k)) := by
  obtain ⟨k, h1, h2, h3, h4, _⟩ := rayMarch_result fl world cam objCoord
  refine ⟨?_, ?_, fun k => ?_⟩
  · rcases h4 with ⟨hit, hc⟩ | ⟨hit, hk, hc⟩
    · exact Or.inl ⟨k, h1, h2, hit, h3, hc⟩
    · refine Or.inr ⟨fun i hi1 hi2 => ?_, hc⟩
      by_cases hik : i = k
      · rw [hik]; exact hit
      · exact h3 i hi1 (by omega)
  · intro hne
    rcases h4 with ⟨hit, hc⟩ | ⟨_, _, hc⟩
    · rw [hc]; exact hit
    · exact absurd hc hne
  · rw [sampleVoxel, raySample_exact]
    rfl

/-- C9 (as stated) fails: with the camera inside the non-air voxel `(0, 0, 0)` the
first sample already hits that voxel, so the ray march returns the non-sentinel
coordinate `(0, 0, 0)` with face `-1`, which is not in `{0, ..., 5}` (in single
precision and in exact arithmetic alike). -/
theorem findSelectedBlock_face_counterexample :
    (findSelectedBlock ieeeFloat originVoxelWorld insideCamera ⟨0, 0, 0⟩ false).coord ≠
      sentinel ∧
    findSelectedBlock ieeeFloat originVoxelWorld insideCamera ⟨0, 0, 0⟩ false =
      ⟨0, 0, 0, -1⟩ ∧
    ¬ (0 ≤ (findSelectedBlock ieeeFloat originVoxelWorld insideCamera ⟨0, 0, 0⟩ false).w ∧
      (findSelectedBlock ieeeFloat originVoxelWorld insideCamera ⟨0, 0, 0⟩ false).w ≤ 5) ∧
    findSelectedBlock exactFloat originVoxelWorld insideCamera ⟨0, 0, 0⟩ false =
      ⟨0, 0, 0, -1⟩ := by
  decide!

/-- C9 (amended): the face index returned by the ray march is always in
`{-1, 0, ..., 5}`; a returned coordinate other than the sentinel comes from a
hit, and when sample `k` is the hit (the first sample in `1..100` whose voxel is
non-air) the returned coordinate is the voxel of sample `k`, the face is `-1`
exactly when the voxel of the previous sample `k - 1` (the camera position for
`k = 1`) is that same voxel, and it is in `{0, ..., 5}` otherwise. -/
theorem findSelectedBlock_rayMarch_face (fl : FloatModel K) (world : World)
    (cam : CursorCamera K) (objCoord : Vec3 K) :
    (-1 ≤ (findSelectedBlock fl world cam objCoord false).w ∧
      (findSelectedBlock fl world cam objCoord false).w ≤ 5) ∧
    ((findSelectedBlock fl world cam objCoord false).coord ≠ sentinel →
      ∃ k, FirstHit fl world cam k) ∧
    (∀ k, FirstHit fl world cam k →
      (findSelectedBlock fl world cam objCoord false).coord = sampleVoxel fl cam k ∧
      ((findSelectedBlock fl world cam objCoord false).w = -1 ↔
        sampleVoxel fl cam (k - 1) = sampleVoxel fl cam k) ∧
      (sampleVoxel fl cam (k - 1) ≠ sampleVoxel fl cam k →
        0 ≤ (findSelectedBlock fl world cam objCoord false).w ∧
          (findSelectedBlock fl world cam objCoord false).w ≤ 5)) := by
  refine ⟨?_, firstHit_of_ne_sentinel fl world cam objCoord, fun k hk => ?_⟩
  · obtain ⟨k, _, _, _, _, h5⟩ := rayMarch_result fl world cam objCoord
    rw [h5]
    exact faceBetween_range _ _
  · obtain ⟨hc, hw⟩ := firstHit_result fl world cam objCoord k hk
    have hr := faceBetween_range (sampleVoxel fl cam (k - 1)) (sampleVoxel fl cam k)
    have hi := faceBetween_eq_neg_one_iff (sampleVoxel fl cam (k - 1)) (sampleVoxel fl cam k)
    rw [← hw] at hr hi
    refine ⟨hc, hi, fun hv => ⟨?_, hr.2⟩⟩
    have hneq : (findSelectedBlock fl world cam objCoord false).w ≠ -1 := fun h => hv (hi.mp h)
    omega

/-- C10 (as stated) fails: with the sentinel selection, a left press and a right
press each make a `setBlock` call. -/
theorem onEvent_sentinel_counterexample :
    onEvent ⟨99999, 99999, 99999, -1⟩ leftClick = [⟨99999, 99999, 99999, 0⟩] ∧
    onEvent ⟨99999, 99999, 99999, -1⟩ rightClick = [⟨99999, 99999, 99999, 1⟩] ∧
    onEvent ⟨99999, 99999, 99999, -1⟩ leftClick ≠ [] ∧
    onEvent ⟨99999, 99999, 99999, -1⟩ rightClick ≠ [] := by
  decide

omit [LinearOrderedField K] [FloorRing K] in
/-- C10 (amended): when the selection is the sentinel coordinate
`(99999, 99999, 99999)`, `onEvent` makes exactly one `setBlock` call on a left
press, with id 0 at the sentinel coordinate, and exactly one on a right press,
with id 1 at the sentinel coordinate moved by the stored face's offset (the
sentinel coordinate itself when the face is `-1`). -/
theorem onEvent_sentinel_requests (face : Int) :
    onEvent ⟨99999, 99999, 99999, face⟩ leftClick = [⟨99999, 99999, 99999, 0⟩] ∧
    onEvent ⟨99999, 99999, 99999, face⟩ rightClick =
      [⟨99999 + (faceOffset face).1, 99999 + (faceOffset face).2.1,
        99999 + (faceOffset face).2.2, 1⟩] ∧
    (face = -1 → onEvent ⟨99999, 99999, 99999, face⟩ rightClick =
      [⟨99999, 99999, 99999, 1⟩]) := by
  refine ⟨by simp [onEvent, leftClick], ?_, ?_⟩
  · simp only [onEvent, rightClick, faceOffset, SDL_BUTTON_RIGHT, SDL_BUTTON_LEFT]
    split_ifs <;> simp_all
  · rintro rfl
    decide

end CursorTheorems

/-! ## Theorems: placement and the depth-buffer method -/

section DepthTheorems

variable {K : Type} [LinearOrderedField K] [FloorRing K]

/-- C11: for every selection with face in `0..5`, a right click makes exactly one
`setBlock` call, with id 1, at the target moved by `+1` along X, Y, Z for faces
0, 1, 2 and by `-1` along X, Y, Z for faces 3, 4, 5 (one unit on exactly one
axis), and a left click makes exactly one call, with id 0, at the target. -/
theorem onEvent_click_requests (sel : Selection) (hface : 0 ≤ sel.w ∧ sel.w ≤ 5) :
    (sel.w = 0 → onEvent sel rightClick = [⟨sel.x + 1, sel.y, sel.z, 1⟩]) ∧
    (sel.w = 1 → onEvent sel rightClick = [⟨sel.x, sel.y + 1, sel.z, 1⟩]) ∧
    (sel.w = 2 → onEvent sel rightClick = [⟨sel.x, sel.y, sel.z + 1, 1⟩]) ∧
    (sel.w = 3 → onEvent sel rightClick = [⟨sel.x - 1, sel.y, sel.z, 1⟩]) ∧
    (sel.w = 4 → onEvent sel rightClick = [⟨sel.x, sel.y - 1, sel.z, 1⟩]) ∧
    (sel.w = 5 → onEvent sel rightClick = [⟨sel.x, sel.y, sel.z - 1, 1⟩]) ∧
    (∃ c, onEvent sel rightClick = [c] ∧ c.id = 1 ∧
      |c.x - sel.x| + |c.y - sel.y| + |c.z - sel.z| = 1) ∧
    onEvent sel leftClick = [⟨sel.x, sel.y, sel.z, 0⟩] := by
  obtain ⟨x, y, z, w⟩ := sel
  simp only at hface
  have hw : w = 0 ∨ w = 1 ∨ w = 2 ∨ w = 3 ∨ w = 4 ∨ w = 5 := by omega
  refine ⟨?_, ?_, ?_, ?_, ?_, ?_, ?_, ?_⟩
  · rintro rfl; simp [onEvent, rightClick, SDL_BUTTON_RIGHT, SDL_BUTTON_LEFT]
  · rintro rfl; simp [onEvent, rightClick, SDL_BUTTON_RIGHT, SDL_BUTTON_LEFT]
  · rintro rfl; simp [onEvent, rightClick, SDL_BUTTON_RIGHT, SDL_BUTTON_LEFT]
  · rintro rfl; simp [onEvent, rightClick, SDL_BUTTON_RIGHT, SDL_BUTTON_LEFT]
  · rintro rfl; simp [onEvent, rightClick, SDL_BUTTON_RIGHT, SDL_BUTTON_LEFT]
  · rintro rfl; simp [onEvent, rightClick, SDL_BUTTON_RIGHT, SDL_BUTTON_LEFT]
  · rcases hw with rfl | rfl | rfl | rfl | rfl | rfl <;>
      simp [onEvent, rightClick, SDL_BUTTON_RIGHT, SDL_BUTTON_LEFT]
  · simp [onEvent, leftClick]

/-- The selection of a target at `(3, -2, 7)` with face `4`. -/
theorem onEvent_click_requests_witness :
    (0 ≤ (⟨3, -2, 7, 4⟩ : Selection).w ∧ (⟨3, -2, 7, 4⟩ : Selection).w ≤ 5) ∧
    onEvent ⟨3, -2, 7, 4⟩ rightClick = [⟨3, -3, 7, 1⟩] ∧
    onEvent ⟨3, -2, 7, 4⟩ leftClick = [⟨3, -2, 7, 0⟩] :=
  ⟨by decide,
    (onEvent_click_requests ⟨3, -2, 7, 4⟩ (by decide)).2.2.2.2.1 rfl,
    (onEvent_click_requests ⟨3, -2, 7, 4⟩ (by decide)).2.2.2.2.2.2.2⟩

/-- The hand-written floor of the depth-buffer method: truncation toward zero,
minus one for a negative value.  It is the floor except on negative integers. -/
theorem depth_floor_eq (v : K) :
    (if v < 0 then toInt v - 1 else toInt v) =
      if v < 0 ∧ ((⌊v⌋ : Int) : K) = v then ⌊v⌋ - 1 else ⌊v⌋ := by
  unfold toInt
  by_cases hv : v < 0
  · rw [if_pos hv, if_neg (not_le.mpr hv)]
    by_cases hi : ((⌊v⌋ : Int) : K) = v
    · rw [if_pos ⟨hv, hi⟩]
      have : ⌈v⌉ = ⌊v⌋ := by
        conv_lhs => rw [← hi]
        exact Int.ceil_intCast _
      rw [this]
    · rw [if_neg (fun h => hi h.2)]
      have hlt : ((⌊v⌋ : Int) : K) < v := lt_of_le_of_ne (Int.floor_le v) hi
      have : ⌈v⌉ = ⌊v⌋ + 1 := by
        rw [Int.ceil_eq_iff]
        constructor
        · push_cast; linarith
        · push_cast; exact le_of_lt (Int.lt_floor_add_one v)
      rw [this]; ring
  · rw [if_neg hv, if_pos (not_lt.mp hv), if_neg (fun h => hv h.1)]

/-- C12 (what the code does): in the depth-buffer method the selected coordinate
on each axis is the floor of the unprojected coordinate, except on a negative
integer-valued coordinate, where it is the floor minus one; at `x = -1` the code
selects `-2` while the floor is `-1`. -/
theorem findSelectedBlock_depth_coord (fl : FloatModel K) (world : World)
    (cam : CursorCamera K) (objCoord : Vec3 K) :
    (findSelectedBlock fl world cam objCoord true).x =
      (if objCoord.x < 0 ∧ ((⌊objCoord.x⌋ : Int) : K) = objCoord.x then ⌊objCoord.x⌋ - 1
        else ⌊objCoord.x⌋) ∧
    (findSelectedBlock fl world cam objCoord true).y =
      (if objCoord.y < 0 ∧ ((⌊objCoord.y⌋ : Int) : K) = objCoord.y then ⌊objCoord.y⌋ - 1
        else ⌊objCoord.y⌋) ∧
    (findSelectedBlock fl world cam objCoord true).z =
      (if objCoord.z < 0 ∧ ((⌊objCoord.z⌋ : Int) : K) = objCoord.z then ⌊objCoord.z⌋ - 1
        else ⌊objCoord.z⌋) ∧
    (findSelectedBlock fl world cam (⟨-1, 0, 0⟩ : Vec3 K) true).x = -2 ∧
    ⌊(-1 : K)⌋ = -1 := by
  have hx : (findSelectedBlock fl world cam objCoord true).x =
      if objCoord.x < 0 then toInt objCoord.x - 1 else toInt objCoord.x := rfl
  have hy : (findSelectedBlock fl world cam objCoord true).y =
      if objCoord.y < 0 then toInt objCoord.y - 1 else toInt objCoord.y := rfl
  have hz : (findSelectedBlock fl world cam objCoord true).z =
      if objCoord.z < 0 then toInt objCoord.z - 1 else toInt objCoord.z := rfl
  have h1 : (findSelectedBlock fl world cam (⟨-1, 0, 0⟩ : Vec3 K) true).x =
      if (-1 : K) < 0 then toInt (-1 : K) - 1 else toInt (-1 : K) := rfl
  have hfl : ⌊(-1 : K)⌋ = -1 := by
    have := Int.floor_intCast (α := K) (-1)
    simpa using this
  refine ⟨by rw [hx, depth_floor_eq], by rw [hy, depth_floor_eq], by rw [hz, depth_floor_eq],
    ?_, hfl⟩
  rw [h1, depth_floor_eq, hfl, if_pos]
  · norm_num
  · constructor
    · norm_num
    · norm_num

/-- C13 (as stated) fails: at `tiePoint` the `x` and `y` distances tie at `0.25`,
below the `z` distance `0.5`, and the code picks the Y face (face 1), not the X
face (in single precision and in exact arithmetic alike). -/
theorem findSelectedBlock_tie_counterexample :
    fract tiePoint.x = fract tiePoint.y ∧ fract tiePoint.x < fract tiePoint.z ∧
    (findSelectedBlock ieeeFloat originVoxelWorld originCamera tiePoint true).w = 1 ∧
    (findSelectedBlock exactFloat originVoxelWorld originCamera tiePoint true).w = 1 := by
  decide!

/-- The face computed by the depth-buffer branch of `findSelectedBlock`. -/
theorem findSelectedBlock_true_w (fl : FloatModel K) (world : World) (cam : CursorCamera K)
    (objCoord : Vec3 K) :
    (findSelectedBlock fl world cam objCoord true).w =
      (fun face0 : Int =>
        (fun face1 : Int =>
          (fun face2 : Int =>
            if face2 = 2 ∧ (cameraLookAt fl cam).z > 0 then face2 + 3 else face2)
            (if face1 = 1 ∧ (cameraLookAt fl cam).y > 0 then face1 + 3 else face1))
          (if face0 = 0 ∧ (cameraLookAt fl cam).x > 0 then face0 + 3 else face0))
        (if fract objCoord.x < fract objCoord.y then
          if fract objCoord.x < fract objCoord.z then 0 else 2
        else if fract objCoord.y < fract objCoord.z then 1 else 2) :=
  rfl

/-- C13 (amended): in the depth-buffer method the chosen face axis has the minimal
`fract` of the three, ties are broken Z over Y over X, the base face is 0 for X,
1 for Y, 2 for Z, and 3 is added exactly when the look-vector component along
the chosen axis is positive. -/
theorem findSelectedBlock_depth_face (fl : FloatModel K) (world : World)
    (cam : CursorCamera K) (objCoord : Vec3 K) :
    ((fract objCoord.z ≤ fract objCoord.x ∧ fract objCoord.z ≤ fract objCoord.y) ∨
      (fract objCoord.y < fract objCoord.z ∧ fract objCoord.y ≤ fract objCoord.x) ∨
      (fract objCoord.x < fract objCoord.y ∧ fract objCoord.x < fract objCoord.z)) ∧
    (fract objCoord.z ≤ fract objCoord.x ∧ fract objCoord.z ≤ fract objCoord.y →
      (findSelectedBlock fl world cam objCoord true).w =
        if (cameraLookAt fl cam).z > 0 then 5 else 2) ∧
    (fract objCoord.y < fract objCoord.z ∧ fract objCoord.y ≤ fract objCoord.x →
      (findSelectedBlock fl world cam objCoord true).w =
        if (cameraLookAt fl cam).y > 0 then 4 else 1) ∧
    (fract objCoord.x < fract objCoord.y ∧ fract objCoord.x < fract objCoord.z →
      (findSelectedBlock fl world cam objCoord true).w =
        if (cameraLookAt fl cam).x > 0 then 3 else 0) := by
  rw [findSelectedBlock_true_w]
  generalize fract objCoord.x = fx
  generalize fract objCoord.y = fy
  generalize fract objCoord.z = fz
  generalize cameraLookAt fl cam = l
  refine ⟨?_, ?_, ?_, ?_⟩
  · rcases lt_or_le fx fy with h1 | h1
    · rcases lt_or_le fx fz with h2 | h2
      · exact Or.inr (Or.inr ⟨h1, h2⟩)
      · exact Or.inl ⟨h2, le_trans h2 (le_of_lt h1)⟩
    · rcases lt_or_le fy fz with h2 | h2
      · exact Or.inr (Or.inl ⟨h2, h1⟩)
      · exact Or.inl ⟨le_trans h2 h1, h2⟩
  · rintro ⟨h1, h2⟩
    have a1 : ¬ fx < fz := not_lt.mpr h1
    have a2 : ¬ fy < fz := not_lt.mpr h2
    by_cases hl : l.z > 0 <;> by_cases hxy : fx < fy <;> simp [a1, a2, hl, hxy]
  · rintro ⟨h1, h2⟩
    have a1 : ¬ fx < fy := not_lt.mpr h2
    by_cases hl : l.y > 0 <;> simp [a1, h1, hl]
  · rintro ⟨h1, h2⟩
    by_cases hl : l.x > 0 <;> simp [h1, h2, hl]

end DepthTheorems

/-! ## Theorems: view angles, drag and velocity copy -/

section InputTheorems

variable {K : Type} [LinearOrderedField K] [FloorRing K]

/-- The remainder `fmodf x 360` lies strictly between `-360` and `360`. -/
theorem fmodf_360_bounds (x : K) : -360 < fmodf x 360 ∧ fmodf x 360 < 360 := by
  unfold fmodf toInt
  have hx : x = x / 360 * 360 := by field_simp
  by_cases h : 0 ≤ x / 360
  · rw [if_pos h]
    have h1 := Int.floor_le (x / 360)
    have h2 := Int.lt_floor_add_one (x / 360)
    constructor <;> nlinarith
  · rw [if_neg h]
    have h1 := Int.le_ceil (x / 360)
    have h2 := Int.ceil_lt_add_one (x / 360)
    constructor <;> nlinarith

/-- The horizontal angle stored by `turnH`, in closed form. -/
theorem turnH_viewAngleH (m : Libm K) (angle : K) (p : ClientPlayer K) :
    (turnH m angle p).m_viewAngleH =
      (fun a : K => if a < -180 then a + 360 else a)
        ((fun a : K => if a ≥ 180 then a - 360 else a) (fmodf (p.m_viewAngleH + angle) 360)) :=
  rfl

omit [FloorRing K] in
/-- The vertical angle stored by `turnViewV`, in closed form. -/
theorem turnViewV_viewAngleV (m : Libm K) (angle : K) (p : ClientPlayer K) :
    (turnViewV m angle p).m_viewAngleV = max (min (p.m_viewAngleV + angle) 90) (-90) :=
  rfl

/-- C14: after any finite sequence of `turnH` calls with arbitrary amounts, the
horizontal angle stored by each further `turnH` call lies in `[-180, 180)`,
whatever the angle stored at the start; and the vertical angle stored by a
`turnViewV` call lies in `[-90, 90]`. -/
theorem turn_angles_in_range (m : Libm K) (p : ClientPlayer K) (angles : List K) (angle : K) :
    (-180 ≤ (turnH m angle (turnHs m angles p)).m_viewAngleH ∧
      (turnH m angle (turnHs m angles p)).m_viewAngleH < 180) ∧
    (-90 ≤ (turnViewV m angle p).m_viewAngleV ∧ (turnViewV m angle p).m_viewAngleV ≤ 90) := by
  constructor
  · rw [turnH_viewAngleH]
    obtain ⟨h1, h2⟩ := fmodf_360_bounds ((turnHs m angles p).m_viewAngleH + angle)
    generalize fmodf ((turnHs m angles p).m_viewAngleH + angle) 360 = a at h1 h2
    simp only []
    split_ifs <;> constructor <;> linarith
  · rw [turnViewV_viewAngleV]
    exact ⟨le_max_right _ _, max_le (le_trans (min_le_right _ _) (le_refl _)) (by norm_num)⟩

omit [FloorRing K] in
/-- With no directional key pressed, `processInputs` copies the inertia buffer
into the horizontal velocity and then divides the buffer by 1.05. -/
theorem processInputs_noDirection (m : Libm K) (keys : GameKey → Bool) (p : ClientPlayer K)
    (h : NoDirection keys) :
    (processInputs m keys p).inertiaBuffer =
        ⟨p.inertiaBuffer.x / 1.05, p.inertiaBuffer.y / 1.05⟩ ∧
    (processInputs m keys p).m_velocity.x = p.inertiaBuffer.x ∧
    (processInputs m keys p).m_velocity.y = p.inertiaBuffer.y := by
  obtain ⟨h1, h2, h3, h4⟩ := h
  unfold processInputs
  simp only [h1, h2, h3, h4]
  cases keys GameKey.Jump <;> cases p.m_isJumping <;> simp [applyVelocity, applyFriction]

omit [FloorRing K] in
/-- With a directional key pressed, `processInputs` ends with the horizontal
velocity equal to the inertia buffer. -/
theorem processInputs_direction (m : Libm K) (keys : GameKey → Bool) (p : ClientPlayer K)
    (h : ¬ NoDirection keys) :
    (processInputs m keys p).m_velocity.x = (processInputs m keys p).inertiaBuffer.x ∧
    (processInputs m keys p).m_velocity.y = (processInputs m keys p).inertiaBuffer.y := by
  unfold NoDirection at h
  unfold processInputs
  cases h1 : keys GameKey.Forward <;> cases h2 : keys GameKey.Back <;>
    cases h3 : keys GameKey.Left <;> cases h4 : keys GameKey.Right <;>
    simp [h1, h2, h3, h4] at h ⊢ <;> simp [applyVelocity]

omit [FloorRing K] in
/-- A square-root function returns the unique non-negative root. -/
theorem sqrt_unique (m : Libm K) (hs : m.IsSqrt) (v r : K) (hr : 0 ≤ r) (h : r * r = v) :
    m.sqrt v = r := by
  have hv : 0 ≤ v := by rw [← h]; exact mul_self_nonneg r
  obtain ⟨a0, a1⟩ := hs v hv
  have hsq : m.sqrt v ^ 2 = r ^ 2 := by rw [pow_two, pow_two, a1, h]
  exact (sq_eq_sq₀ a0 hr).mp hsq

omit [FloorRing K] in
/-- Scaling a vector by a non-negative factor scales its magnitude. -/
theorem magnitude_scale (m : Libm K) (hs : m.IsSqrt) (c : K) (hc : 0 ≤ c) (v : Vec2 K) :
    magnitude m ⟨c * v.x, c * v.y⟩ = c * magnitude m v := by
  unfold magnitude
  have hv : 0 ≤ v.x * v.x + v.y * v.y := add_nonneg (mul_self_nonneg _) (mul_self_nonneg _)
  obtain ⟨a0, a1⟩ := hs _ hv
  apply sqrt_unique m hs _ _ (mul_nonneg hc a0)
  calc c * m.sqrt (v.x * v.x + v.y * v.y) * (c * m.sqrt (v.x * v.x + v.y * v.y))
      = c * c * (m.sqrt (v.x * v.x + v.y * v.y) * m.sqrt (v.x * v.x + v.y * v.y)) := by ring
    _ = c * v.x * (c * v.x) + c * v.y * (c * v.y) := by rw [a1]; ring

omit [FloorRing K] in
/-- The inertia buffer after a sequence of `processInputs` calls without
directional keys. -/
theorem processInputsSeq_noDirection (m : Libm K) (ks : List (GameKey → Bool))
    (p : ClientPlayer K) (hno : ∀ keys ∈ ks, NoDirection keys) :
    (processInputsSeq m ks p).inertiaBuffer =
      ⟨p.inertiaBuffer.x / 1.05 ^ ks.length, p.inertiaBuffer.y / 1.05 ^ ks.length⟩ := by
  induction ks generalizing p with
  | nil => simp [processInputsSeq]
  | cons keys ks ih =>
    have h1 := (processInputs_noDirection m keys p (hno keys (List.mem_cons_self _ _))).1
    have h2 := ih (processInputs m keys p) (fun k hk => hno k (List.mem_cons_of_mem _ hk))
    have e : processInputsSeq m (keys :: ks) p = processInputsSeq m ks (processInputs m keys p) :=
      rfl
    rw [e, h2, h1]
    simp only [List.length_cons, pow_succ, Vec2.mk.injEq]
    constructor <;> (rw [div_div]; congr 1; ring)

omit [FloorRing K] in
/-- C15: running `processInputs` `N` times with no directional key pressed leaves
the inertia buffer equal to the initial one divided by `1.05 ^ N` on each
component, whatever the Jump, Sprint and Sneak keys are; with a true square root
its magnitude is the initial magnitude divided by `1.05 ^ N`. -/
theorem processInputsSeq_drag (m : Libm K) (ks : List (GameKey → Bool)) (p : ClientPlayer K)
    (hno : ∀ keys ∈ ks, NoDirection keys) :
    (processInputsSeq m ks p).inertiaBuffer.x = p.inertiaBuffer.x / 1.05 ^ ks.length ∧
    (processInputsSeq m ks p).inertiaBuffer.y = p.inertiaBuffer.y / 1.05 ^ ks.length ∧
    (m.IsSqrt → magnitude m (processInputsSeq m ks p).inertiaBuffer =
      magnitude m p.inertiaBuffer / 1.05 ^ ks.length) := by
  have h := processInputsSeq_noDirection m ks p hno
  refine ⟨by rw [h], by rw [h], fun hs => ?_⟩
  rw [h]
  have hpos : (0 : K) < 1.05 ^ ks.length := by positivity
  have e := magnitude_scale m hs (1 / 1.05 ^ ks.length) (by positivity) p.inertiaBuffer
  rw [div_eq_mul_one_div (magnitude m p.inertiaBuffer), mul_comm _ (1 / _), ← e]
  congr 1
  rw [Vec2.mk.injEq]
  constructor <;> ring

/-- The three example key states press no directional key. -/
theorem exampleKeys_noDirection :
    ∀ keys ∈ [noKeys, jumpKeys, sprintSneakKeys], NoDirection keys := by
  intro keys hk
  simp only [List.mem_cons, List.mem_singleton, List.mem_nil_iff, or_false] at hk
  rcases hk with rfl | rfl | rfl <;> exact ⟨rfl, rfl, rfl, rfl⟩

/-- Three ticks without directional keys (none, Jump, Sprint and Sneak) divide the
buffer `(0.021, 0)` by `1.05 ^ 3`. -/
theorem processInputsSeq_drag_witness :
    (∀ keys ∈ [noKeys, jumpKeys, sprintSneakKeys], NoDirection keys) ∧
    (processInputsSeq stubLibm [noKeys, jumpKeys, sprintSneakKeys] driftingPlayer).inertiaBuffer.x =
      driftingPlayer.inertiaBuffer.x / 1.05 ^ [noKeys, jumpKeys, sprintSneakKeys].length :=
  ⟨exampleKeys_noDirection,
    (processInputsSeq_drag stubLibm [noKeys, jumpKeys, sprintSneakKeys] driftingPlayer
      exampleKeys_noDirection).1⟩

/-- C17 (as stated) fails: with no key pressed and inertia buffer `(0.021, 0)`,
`processInputs` ends with horizontal velocity `0.021` but inertia buffer `0.02`. -/
theorem processInputs_velocity_counterexample :
    (processInputs stubLibm noKeys driftingPlayer).m_velocity.x = 21 / 1000 ∧
    (processInputs stubLibm noKeys driftingPlayer).inertiaBuffer.x = 1 / 50 ∧
    (processInputs stubLibm noKeys driftingPlayer).m_velocity.x ≠
      (processInputs stubLibm noKeys driftingPlayer).inertiaBuffer.x := by
  decide!

omit [FloorRing K] in
/-- C17 (amended): after `processInputs`, when a directional key is pressed the
horizontal velocity equals the inertia buffer as it stands at the end of the
call (after the acceleration step); when none is pressed it equals the inertia
buffer as it stood before this tick's drag division, which the call then
divides by 1.05. -/
theorem processInputs_velocity (m : Libm K) (keys : GameKey → Bool) (p : ClientPlayer K) :
    (¬ NoDirection keys →
      (processInputs m keys p).m_velocity.x = (processInputs m keys p).inertiaBuffer.x ∧
      (processInputs m keys p).m_velocity.y = (processInputs m keys p).inertiaBuffer.y) ∧
    (NoDirection keys →
      (processInputs m keys p).m_velocity.x = p.inertiaBuffer.x ∧
      (processInputs m keys p).m_velocity.y = p.inertiaBuffer.y ∧
      (processInputs m keys p).inertiaBuffer.x = p.inertiaBuffer.x / 1.05 ∧
      (processInputs m keys p).inertiaBuffer.y = p.inertiaBuffer.y / 1.05) := by
  refine ⟨processInputs_direction m keys p, fun h => ?_⟩
  obtain ⟨h1, h2, h3⟩ := processInputs_noDirection m keys p h
  exact ⟨h2, h3, by rw [h1], by rw [h1]⟩

end InputTheorems

/-! ## Theorems: fly mode -/

section FlyTheorems

variable {K : Type} [LinearOrderedField K] [FloorRing K]

omit [FloorRing K] in
/-- The airborne flag and the velocity are not written by `move`. -/
theorem move_flag_velocity (m : Libm K) (d : K) (p : ClientPlayer K) :
    (move m d p).m_isJumping = p.m_isJumping ∧ (move m d p).m_velocity = p.m_velocity := by
  unfold move
  simp only []
  split_ifs <;> exact ⟨rfl, rfl⟩

omit [FloorRing K] in
/-- When the airborne flag is set, `processInputs` leaves the flag and the
vertical velocity as they are (the jump branch does not fire). -/
theorem processInputs_airborne (m : Libm K) (keys : GameKey → Bool) (p : ClientPlayer K)
    (h : p.m_isJumping = true) :
    (processInputs m keys p).m_isJumping = true ∧
    (processInputs m keys p).m_velocity.z = p.m_velocity.z := by
  unfold processInputs
  simp only [h, Bool.not_true, Bool.and_false, Bool.false_eq_true, if_false]
  cases keys GameKey.Forward <;> cases keys GameKey.Back <;> cases keys GameKey.Left <;>
    cases keys GameKey.Right <;>
    simp [applyVelocity, applyFriction, move_flag_velocity, h]

omit [FloorRing K] in
/-- A jump from the ground sets the flag and the vertical velocity to the jump speed. -/
theorem processInputs_jump (m : Libm K) (keys : GameKey → Bool) (p : ClientPlayer K)
    (hj : keys GameKey.Jump = true) (h : p.m_isJumping = false) :
    (processInputs m keys p).m_isJumping = true ∧
    (processInputs m keys p).m_velocity.z = p.m_jumpSpeed := by
  unfold processInputs
  simp only [h, hj, Bool.not_false, Bool.and_self, if_true]
  cases keys GameKey.Forward <;> cases keys GameKey.Back <;> cases keys GameKey.Left <;>
    cases keys GameKey.Right <;>
    simp [applyVelocity, applyFriction, move_flag_velocity]

/-- With a non-negative vertical velocity, `checkCollisions` keeps the airborne
flag and a non-negative vertical velocity. -/
theorem checkCollisions_rising (world : ClientWorld K) (p : ClientPlayer K)
    (h : 0 ≤ p.m_velocity.z) :
    (checkCollisions world p).m_isJumping = p.m_isJumping ∧
    0 ≤ (checkCollisions world p).m_velocity.z := by
  rw [checkCollisions_eq]
  refine ⟨testPoints_isJumping_of_nonneg world _ p h, ?_⟩
  rw [testPoints_vz]
  split_ifs
  · exact le_refl _
  · exact h

/-- In fly mode `updatePosition` preserves the predicate "airborne flag set and
vertical velocity not negative". -/
theorem updatePosition_fly_airborne (noClip : Bool) (world : ClientWorld K)
    (p : ClientPlayer K) (g : GameConfig K) (h : AirborneRising p) :
    AirborneRising (updatePosition ⟨true, noClip⟩ world (p, g)).1 := by
  obtain ⟨hj, hv⟩ := h
  rw [updatePosition_fst]
  have h1 : (gravityStage ⟨true, noClip⟩ world p).m_isJumping = true ∧
      0 ≤ (gravityStage ⟨true, noClip⟩ world p).m_velocity.z := by
    unfold gravityStage
    cases world.getChunkAtBlockPos (toInt p.m_x) (toInt p.m_y) (toInt p.m_z) with
    | none => cases noClip <;> simp [hj, hv]
    | some c => cases hi : c.isInitialized <;> cases noClip <;> simp [hj, hv, hi]
  have h2 : (collisionStage ⟨true, noClip⟩ world (gravityStage ⟨true, noClip⟩ world p)).m_isJumping
        = true ∧
      0 ≤ (collisionStage ⟨true, noClip⟩ world
        (gravityStage ⟨true, noClip⟩ world p)).m_velocity.z := by
    unfold collisionStage
    cases noClip
    · simp only [Bool.not_false, if_true]
      obtain ⟨a, b⟩ := checkCollisions_rising world _ h1.2
      exact ⟨a.trans h1.1, b⟩
    · simpa using h1
  generalize collisionStage ⟨true, noClip⟩ world (gravityStage ⟨true, noClip⟩ world p) = q at h2
  simp [AirborneRising, dampStage, commitStage, setPosition, h2.1]

/-- One call in fly mode preserves the predicate. -/
theorem runCall_fly_airborne (m : Libm K) (c : PlayerCall K)
    (s : ClientPlayer K × GameConfig K) (h : AirborneRising s.1) :
    AirborneRising (runCall m true c s).1 := by
  cases c with
  | inputs keys =>
    obtain ⟨a, b⟩ := processInputs_airborne m keys s.1 h.1
    exact ⟨a, b.symm ▸ h.2⟩
  | update noClip world =>
    exact updatePosition_fly_airborne noClip world s.1 s.2 h

/-- Any sequence of calls in fly mode preserves the predicate. -/
theorem runCalls_fly_airborne (m : Libm K) (calls : List (PlayerCall K))
    (s : ClientPlayer K × GameConfig K) (h : AirborneRising s.1) :
    AirborneRising (runCalls m true calls s).1 := by
  induction calls generalizing s with
  | nil => exact h
  | cons c calls ih => exact ih (runCall m true c s) (runCall_fly_airborne m c s h)

/-- C19: while fly mode is enabled, the predicate "airborne flag set and vertical
velocity not negative" is preserved by `processInputs` for every key set and by
`updatePosition` for every world and no-clip setting; hence it holds after any
sequence of such calls, the airborne flag is never cleared, and the jump branch
of `processInputs` (Jump pressed and flag clear) does not fire after any such
sequence.  A jump with a non-negative jump speed establishes the predicate. -/
theorem fly_mode_keeps_airborne (m : Libm K) (p : ClientPlayer K) (g : GameConfig K)
    (h : AirborneRising p) :
    (∀ keys : GameKey → Bool, AirborneRising (processInputs m keys p)) ∧
    (∀ (noClip : Bool) (world : ClientWorld K),
      AirborneRising (updatePosition ⟨true, noClip⟩ world (p, g)).1) ∧
    (∀ calls : List (PlayerCall K), AirborneRising (runCalls m true calls (p, g)).1) ∧
    (∀ calls : List (PlayerCall K), (runCalls m true calls (p, g)).1.m_isJumping = true) ∧
    (∀ (calls : List (PlayerCall K)) (keys : GameKey → Bool),
      (keys GameKey.Jump && !(runCalls m true calls (p, g)).1.m_isJumping) = false) ∧
    (∀ (p₀ : ClientPlayer K) (keys : GameKey → Bool),
      keys GameKey.Jump = true → p₀.m_isJumping = false →
      0 ≤ p₀.m_jumpSpeed → AirborneRising (processInputs m keys p₀)) := by
  refine ⟨fun keys => ?_, fun noClip world => updatePosition_fly_airborne noClip world p g h,
    fun calls => runCalls_fly_airborne m calls (p, g) h,
    fun calls => (runCalls_fly_airborne m calls (p, g) h).1,
    fun calls keys => ?_, fun p₀ keys hj hf hs => ?_⟩
  · obtain ⟨a, b⟩ := processInputs_airborne m keys p h.1
    exact ⟨a, by rw [b]; exact h.2⟩
  · rw [(runCalls_fly_airborne m calls (p, g) h).1]
    simp
  · obtain ⟨a, b⟩ := processInputs_jump m keys p₀ hj hf
    exact ⟨a, by rw [b]; exact hs⟩

/-- The fly-mode statement at `risingPlayer`: a tick over the floor world keeps
the airborne flag. -/
theorem fly_mode_keeps_airborne_witness :
    AirborneRising risingPlayer ∧
    (runCalls stubLibm true
      [PlayerCall.inputs jumpKeys, PlayerCall.update false floorWorld]
      (risingPlayer, restGameConfig)).1.m_isJumping = true :=
  ⟨⟨rfl, by decide!⟩,
    (fly_mode_keeps_airborne stubLibm risingPlayer restGameConfig ⟨rfl, by decide!⟩).2.2.2.1
      [PlayerCall.inputs jumpKeys, PlayerCall.update false floorWorld]⟩

end FlyTheorems

/-! ## Theorems: speed cap and smoothing correction -/

section SpeedTheorems

variable {K : Type} [LinearOrderedField K] [FloorRing K]

omit [FloorRing K] in
/-- The inertia buffer written by `move`, in terms of the accumulated buffer. -/
theorem move_inertiaBuffer (m : Libm K) (d : K) (p : ClientPlayer K) :
    (move m d p).inertiaBuffer =
      if magnitude m (accumulated m d p) > p.maxSpeed then
        ⟨(accumulated m d p).x - (accumulated m d p).x * (1 / magnitude m (accumulated m d p)) *
            ((p.maxSpeed + magnitude m (accumulated m d p)) / 20),
         (accumulated m d p).y - (accumulated m d p).y * (1 / magnitude m (accumulated m d p)) *
            ((p.maxSpeed + magnitude m (accumulated m d p)) / 20)⟩
      else accumulated m d p := by
  unfold move magnitude accumulated
  simp only []
  split_ifs <;> rfl

omit [FloorRing K] in
/-- The smoothing correction of `move`: when the accumulated magnitude `mg`
exceeds the cap `M > 0`, the buffer is scaled by `c = 1 - (M + mg) / (20 mg) > 0`
and its magnitude becomes `mg - (M + mg) / 20`. -/
theorem move_corrected (m : Libm K) (hs : m.IsSqrt) (d : K) (p : ClientPlayer K)
    (hM : 0 < p.maxSpeed) (hover : magnitude m (accumulated m d p) > p.maxSpeed) :
    (0 < 1 - (p.maxSpeed + magnitude m (accumulated m d p)) /
        (20 * magnitude m (accumulated m d p))) ∧
    (move m d p).inertiaBuffer =
      ⟨(1 - (p.maxSpeed + magnitude m (accumulated m d p)) /
          (20 * magnitude m (accumulated m d p))) * (accumulated m d p).x,
       (1 - (p.maxSpeed + magnitude m (accumulated m d p)) /
          (20 * magnitude m (accumulated m d p))) * (accumulated m d p).y⟩ ∧
    magnitude m (move m d p).inertiaBuffer =
      magnitude m (accumulated m d p) - (p.maxSpeed + magnitude m (accumulated m d p)) / 20 := by
  rw [move_inertiaBuffer, if_pos hover]
  generalize hdef : magnitude m (accumulated m d p) = mg at hover
  have hmg : 0 < mg := lt_trans hM hover
  have hc : 0 < 1 - (p.maxSpeed + mg) / (20 * mg) := by
    rw [sub_pos, div_lt_one (by positivity)]
    linarith
  have hb : (⟨(accumulated m d p).x - (accumulated m d p).x * (1 / mg) *
        ((p.maxSpeed + mg) / 20),
      (accumulated m d p).y - (accumulated m d p).y * (1 / mg) *
        ((p.maxSpeed + mg) / 20)⟩ : Vec2 K) =
      ⟨(1 - (p.maxSpeed + mg) / (20 * mg)) * (accumulated m d p).x,
       (1 - (p.maxSpeed + mg) / (20 * mg)) * (accumulated m d p).y⟩ := by
    rw [Vec2.mk.injEq]
    constructor <;> field_simp <;> ring
  refine ⟨hc, hb, ?_⟩
  rw [hb, magnitude_scale m hs _ (le_of_lt hc), hdef]
  field_simp
  ring

omit [FloorRing K] in
/-- C16 (amended): when the magnitude `mg` of the buffer after the accumulation of
a `move` call exceeds `maxSpeed > 0`, the smoothing correction keeps the
buffer's direction (scales it by a positive factor), makes its magnitude exactly
`mg - (maxSpeed + mg) / 20`, which is strictly smaller than `mg` and strictly
above `0.9 * maxSpeed`; the corrected magnitude is no farther from `maxSpeed`
than `mg` was exactly when `mg ≥ (41 / 39) * maxSpeed`. -/
theorem move_smoothing (m : Libm K) (hs : m.IsSqrt) (d : K) (p : ClientPlayer K)
    (hM : 0 < p.maxSpeed) (hover : magnitude m (accumulated m d p) > p.maxSpeed) :
    (∃ c, 0 < c ∧ (move m d p).inertiaBuffer.x = c * (accumulated m d p).x ∧
      (move m d p).inertiaBuffer.y = c * (accumulated m d p).y) ∧
    magnitude m (move m d p).inertiaBuffer =
      magnitude m (accumulated m d p) -
        (p.maxSpeed + magnitude m (accumulated m d p)) / 20 ∧
    magnitude m (move m d p).inertiaBuffer < magnitude m (accumulated m d p) ∧
    0.9 * p.maxSpeed < magnitude m (move m d p).inertiaBuffer ∧
    (|magnitude m (move m d p).inertiaBuffer - p.maxSpeed| ≤
        |magnitude m (accumulated m d p) - p.maxSpeed| ↔
      41 / 39 * p.maxSpeed ≤ magnitude m (accumulated m d p)) := by
  obtain ⟨hc, hb, hmag⟩ := move_corrected m hs d p hM hover
  refine ⟨⟨_, hc, by rw [hb], by rw [hb]⟩, hmag, ?_, ?_, ?_⟩
  · rw [hmag]; linarith
  · rw [hmag]; linarith
  · rw [hmag, abs_of_pos (sub_pos.mpr hover), abs_le]
    constructor
    · rintro ⟨h1, _⟩; linarith
    · intro h; constructor <;> linarith

/-- The real cosine, sine and square root form a true square root. -/
theorem real_isSqrt : (⟨Real.cos, Real.sin, Real.sqrt, Real.pi / 180⟩ : Libm ℝ).IsSqrt :=
  fun v hv => ⟨Real.sqrt_nonneg v, Real.mul_self_sqrt hv⟩

/-- The real cosine and sine lie on the unit circle. -/
theorem real_isTrig : (⟨Real.cos, Real.sin, Real.sqrt, Real.pi / 180⟩ : Libm ℝ).IsTrig := by
  intro a
  have h := Real.cos_sq_add_sin_sq a
  simp only [pow_two] at h
  exact h

/-- Moving forward at view angle 0 adds `0.001` to the `x` component. -/
theorem accumulated_forward_real (bx : ℝ) :
    accumulated (⟨Real.cos, Real.sin, Real.sqrt, Real.pi / 180⟩ : Libm ℝ) 0 (restingPlayer bx) =
      ⟨bx + 0.001, 0⟩ := by
  simp [accumulated, restingPlayer]

/-- The magnitude of a vector along `+x`. -/
theorem magnitude_real_x (r : ℝ) (hr : 0 ≤ r) :
    magnitude (⟨Real.cos, Real.sin, Real.sqrt, Real.pi / 180⟩ : Libm ℝ) ⟨r, 0⟩ = r := by
  unfold magnitude
  exact sqrt_unique _ real_isSqrt _ r hr (by ring)

/-- C16 (as stated) fails: with cap `0.03` and buffer `(0.0295, 0)`, a forward
`move` accumulates to magnitude `0.0305 > 0.03`; the correction brings it to
`0.027475`, which is farther from the cap (`0.002525`) than `0.0305` was
(`0.0005`). -/
theorem move_smoothing_counterexample :
    (restingPlayer (0.0295 : ℝ)).maxSpeed = 0.03 ∧
    magnitude (⟨Real.cos, Real.sin, Real.sqrt, Real.pi / 180⟩ : Libm ℝ)
      (accumulated (⟨Real.cos, Real.sin, Real.sqrt, Real.pi / 180⟩ : Libm ℝ) 0
        (restingPlayer (0.0295 : ℝ))) = 0.0305 ∧
    magnitude (⟨Real.cos, Real.sin, Real.sqrt, Real.pi / 180⟩ : Libm ℝ)
      (move (⟨Real.cos, Real.sin, Real.sqrt, Real.pi / 180⟩ : Libm ℝ) 0
        (restingPlayer (0.0295 : ℝ))).inertiaBuffer = 0.027475 ∧
    ¬ (|magnitude (⟨Real.cos, Real.sin, Real.sqrt, Real.pi / 180⟩ : Libm ℝ)
          (move (⟨Real.cos, Real.sin, Real.sqrt, Real.pi / 180⟩ : Libm ℝ) 0
            (restingPlayer (0.0295 : ℝ))).inertiaBuffer - 0.03| ≤
        |magnitude (⟨Real.cos, Real.sin, Real.sqrt, Real.pi / 180⟩ : Libm ℝ)
          (accumulated (⟨Real.cos, Real.sin, Real.sqrt, Real.pi / 180⟩ : Libm ℝ) 0
            (restingPlayer (0.0295 : ℝ))) - 0.03|) := by
  have hM : (restingPlayer (0.0295 : ℝ)).maxSpeed = 0.03 := rfl
  have hacc : magnitude (⟨Real.cos, Real.sin, Real.sqrt, Real.pi / 180⟩ : Libm ℝ)
      (accumulated (⟨Real.cos, Real.sin, Real.sqrt, Real.pi / 180⟩ : Libm ℝ) 0
        (restingPlayer (0.0295 : ℝ))) = 0.0305 := by
    rw [accumulated_forward_real, magnitude_real_x _ (by norm_num)]
    norm_num
  have hmove : magnitude (⟨Real.cos, Real.sin, Real.sqrt, Real.pi / 180⟩ : Libm ℝ)
      (move (⟨Real.cos, Real.sin, Real.sqrt, Real.pi / 180⟩ : Libm ℝ) 0
        (restingPlayer (0.0295 : ℝ))).inertiaBuffer = 0.027475 := by
    rw [(move_corrected _ real_isSqrt 0 (restingPlayer (0.0295 : ℝ))
      (by rw [hM]; norm_num) (by rw [hM, hacc]; norm_num)).2.2, hacc, hM]
    norm_num
  refine ⟨hM, hacc, hmove, ?_⟩
  rw [hmove, hacc]
  norm_num [abs_of_neg, abs_of_pos]

/-- The C16 statement at the real library functions, cap `0.03` and buffer
`(0.04, 0)`: the accumulated magnitude `0.041` is brought to `0.03745`. -/
theorem move_smoothing_witness :
    (⟨Real.cos, Real.sin, Real.sqrt, Real.pi / 180⟩ : Libm ℝ).IsSqrt ∧
    0 < (restingPlayer (0.04 : ℝ)).maxSpeed ∧
    magnitude (⟨Real.cos, Real.sin, Real.sqrt, Real.pi / 180⟩ : Libm ℝ)
      (accumulated (⟨Real.cos, Real.sin, Real.sqrt, Real.pi / 180⟩ : Libm ℝ) 0
        (restingPlayer (0.04 : ℝ))) > (restingPlayer (0.04 : ℝ)).maxSpeed ∧
    magnitude (⟨Real.cos, Real.sin, Real.sqrt, Real.pi / 180⟩ : Libm ℝ)
      (move (⟨Real.cos, Real.sin, Real.sqrt, Real.pi / 180⟩ : Libm ℝ) 0
        (restingPlayer (0.04 : ℝ))).inertiaBuffer <
      magnitude (⟨Real.cos, Real.sin, Real.sqrt, Real.pi / 180⟩ : Libm ℝ)
        (accumulated (⟨Real.cos, Real.sin, Real.sqrt, Real.pi / 180⟩ : Libm ℝ) 0
          (restingPlayer (0.04 : ℝ))) := by
  have hM : (restingPlayer (0.04 : ℝ)).maxSpeed = 0.03 := rfl
  have hpos : 0 < (restingPlayer (0.04 : ℝ)).maxSpeed := by rw [hM]; norm_num
  have hover : magnitude (⟨Real.cos, Real.sin, Real.sqrt, Real.pi / 180⟩ : Libm ℝ)
      (accumulated (⟨Real.cos, Real.sin, Real.sqrt, Real.pi / 180⟩ : Libm ℝ) 0
        (restingPlayer (0.04 : ℝ))) > (restingPlayer (0.04 : ℝ)).maxSpeed := by
    rw [accumulated_forward_real, magnitude_real_x _ (by norm_num), hM]
    norm_num
  exact ⟨real_isSqrt, hpos, hover,
    (move_smoothing _ real_isSqrt 0 (restingPlayer (0.04 : ℝ)) hpos hover).2.2.1⟩

omit [FloorRing K] in
/-- The magnitude is non-negative and squares to the sum of squares. -/
theorem magnitude_spec (m : Libm K) (hs : m.IsSqrt) (v : Vec2 K) :
    0 ≤ magnitude m v ∧ magnitude m v * magnitude m v = v.x * v.x + v.y * v.y :=
  hs _ (add_nonneg (mul_self_nonneg _) (mul_self_nonneg _))

omit [FloorRing K] in
/-- Triangle inequality for the accumulation step: adding the unit-direction
acceleration `0.001` raises the magnitude by at most `0.001`. -/
theorem magnitude_accumulated_le (m : Libm K) (hs : m.IsSqrt) (ht : m.IsTrig) (d : K)
    (p : ClientPlayer K) :
    magnitude m (accumulated m d p) ≤ magnitude m p.inertiaBuffer + 0.001 := by
  obtain ⟨a0, a1⟩ := magnitude_spec m hs (accumulated m d p)
  obtain ⟨b0, b1⟩ := magnitude_spec m hs p.inertiaBuffer
  have hc := ht ((d + p.m_viewAngleH) * m.RADIANS_PER_DEGREES)
  generalize magnitude m (accumulated m d p) = A at a0 a1 ⊢
  simp only [accumulated] at a1
  generalize magnitude m p.inertiaBuffer = B at b0 b1 ⊢
  generalize m.cosf ((d + p.m_viewAngleH) * m.RADIANS_PER_DEGREES) = c at hc a1
  generalize m.sinf ((d + p.m_viewAngleH) * m.RADIANS_PER_DEGREES) = s at hc a1
  generalize p.inertiaBuffer.x = x at a1 b1
  generalize p.inertiaBuffer.y = y at a1 b1
  have ht2 : (x * c + y * s) * (x * c + y * s) ≤ B * B := by
    have : (x * c + y * s) * (x * c + y * s) + (x * s - y * c) * (x * s - y * c) =
        (x * x + y * y) * (c * c + s * s) := by ring
    rw [hc, mul_one, ← b1] at this
    nlinarith [mul_self_nonneg (x * s - y * c)]
  have ht1 : x * c + y * s ≤ B := by
    by_contra hlt
    push_neg at hlt
    nlinarith
  by_contra hlt
  push_neg at hlt
  have hAA : A * A = B * B + 0.002 * (x * c + y * s) + 0.000001 := by
    rw [a1, b1]
    have e : (x + 0.001 * c) * (x + 0.001 * c) + (y + 0.001 * s) * (y + 0.001 * s) =
        x * x + y * y + 0.002 * (x * c + y * s) + 0.000001 * (c * c + s * s) := by ring
    rw [e, hc]; ring
  nlinarith

omit [FloorRing K] in
/-- C18: for every speed cap `maxSpeed ≥ 0.0095` (in particular 0.01, 0.03 and
0.05), every view angle and every direction, if the magnitude of the inertia
buffer is at most `maxSpeed` before a `move` call it is at most `maxSpeed` after
it (and `move` leaves the cap as it is); `applyFriction` preserves the same
bound. -/
theorem move_keeps_within_cap (m : Libm K) (hs : m.IsSqrt) (ht : m.IsTrig) (d : K)
    (p : ClientPlayer K) (hM : 0.0095 ≤ p.maxSpeed)
    (hb : magnitude m p.inertiaBuffer ≤ p.maxSpeed) :
    magnitude m (move m d p).inertiaBuffer ≤ (move m d p).maxSpeed ∧
    (move m d p).maxSpeed = p.maxSpeed ∧
    magnitude m (applyFriction p).inertiaBuffer ≤ (applyFriction p).maxSpeed ∧
    (applyFriction p).maxSpeed = p.maxSpeed := by
  have hacc := magnitude_accumulated_le m hs ht d p
  refine ⟨?_, move_maxSpeed m d p, ?_, rfl⟩
  · rw [move_maxSpeed]
    by_cases hover : magnitude m (accumulated m d p) > p.maxSpeed
    · rw [(move_corrected m hs d p (by linarith) hover).2.2]
      linarith
    · rw [move_inertiaBuffer, if_neg hover]
      exact not_lt.mp hover
  · have e : (applyFriction p).inertiaBuffer =
        ⟨1 / 1.05 * p.inertiaBuffer.x, 1 / 1.05 * p.inertiaBuffer.y⟩ := by
      simp only [applyFriction, Vec2.mk.injEq]
      constructor <;> ring
    rw [e, magnitude_scale m hs _ (by norm_num)]
    have h0 := (magnitude_spec m hs p.inertiaBuffer).1
    show 1 / 1.05 * magnitude m p.inertiaBuffer ≤ p.maxSpeed
    have : 1 / 1.05 * magnitude m p.inertiaBuffer ≤ magnitude m p.inertiaBuffer := by
      have h1 : (1 / 1.05 : K) ≤ 1 := by norm_num
      nlinarith
    linarith

/-- The cap statement at the real library functions and a player at rest
(buffer `(0, 0)`, cap `0.03`). -/
theorem move_keeps_within_cap_witness :
    (⟨Real.cos, Real.sin, Real.sqrt, Real.pi / 180⟩ : Libm ℝ).IsSqrt ∧
    (⟨Real.cos, Real.sin, Real.sqrt, Real.pi / 180⟩ : Libm ℝ).IsTrig ∧
    0.0095 ≤ (restingPlayer (0 : ℝ)).maxSpeed ∧
    magnitude (⟨Real.cos, Real.sin, Real.sqrt, Real.pi / 180⟩ : Libm ℝ)
      (restingPlayer (0 : ℝ)).inertiaBuffer ≤ (restingPlayer (0 : ℝ)).maxSpeed ∧
    magnitude (⟨Real.cos, Real.sin, Real.sqrt, Real.pi / 180⟩ : Libm ℝ)
      (move (⟨Real.cos, Real.sin, Real.sqrt, Real.pi / 180⟩ : Libm ℝ) 90
        (restingPlayer (0 : ℝ))).inertiaBuffer ≤
      (move (⟨Real.cos, Real.sin, Real.sqrt, Real.pi / 180⟩ : Libm ℝ) 90
        (restingPlayer (0 : ℝ))).maxSpeed := by
  have hM : (restingPlayer (0 : ℝ)).maxSpeed = 0.03 := rfl
  have h1 : 0.0095 ≤ (restingPlayer (0 : ℝ)).maxSpeed := by rw [hM]; norm_num
  have h2 : magnitude (⟨Real.cos, Real.sin, Real.sqrt, Real.pi / 180⟩ : Libm ℝ)
      (restingPlayer (0 : ℝ)).inertiaBuffer ≤ (restingPlayer (0 : ℝ)).maxSpeed := by
    have e : (restingPlayer (0 : ℝ)).inertiaBuffer = ⟨0, 0⟩ := rfl
    rw [e, magnitude_real_x 0 (le_refl _), hM]
    norm_num
  exact ⟨real_isSqrt, real_isTrig, h1, h2,
    (move_keeps_within_cap _ real_isSqrt real_isTrig 90 (restingPlayer (0 : ℝ)) h1 h2).1⟩

end SpeedTheorems

/-! ## Theorems: placement after a ray-march hit -/

section PlacementTheorems

variable {K : Type} [LinearOrderedField K] [FloorRing K]

/-- A step of size at most 1 changes the floor by at most 1. -/
theorem floor_step (a d : K) (hd : |d| ≤ 1) : |⌊a + d⌋ - ⌊a⌋| ≤ 1 := by
  obtain ⟨h1, h2⟩ := abs_le.mp hd
  rw [abs_le]
  constructor
  · have : ⌊a⌋ - 1 ≤ ⌊a + d⌋ := by
      rw [Int.le_floor]
      push_cast
      linarith [Int.floor_le a]
    omega
  · have : ⌊a + d⌋ ≤ ⌊a⌋ + 1 := by
      rw [← Int.floor_add_one]
      exact Int.floor_le_floor (by linarith)
    omega

/-- For a previous voxel that differs from the hit voxel on exactly one axis, by
at most one unit, the right-click cell is the previous voxel. -/
theorem onEvent_faceBetween (pv cv : Int × Int × Int) (hd : DifferOnOneAxis pv cv)
    (hx : |cv.1 - pv.1| ≤ 1) (hy : |cv.2.1 - pv.2.1| ≤ 1) (hz : |cv.2.2 - pv.2.2| ≤ 1) :
    onEvent ⟨cv.1, cv.2.1, cv.2.2, faceBetween pv cv⟩ rightClick =
      [⟨pv.1, pv.2.1, pv.2.2, 1⟩] := by
  obtain ⟨p1, p2, p3⟩ := pv
  obtain ⟨c1, c2, c3⟩ := cv
  have hx' : -1 ≤ c1 - p1 ∧ c1 - p1 ≤ 1 := abs_le.mp hx
  have hy' : -1 ≤ c2 - p2 ∧ c2 - p2 ≤ 1 := abs_le.mp hy
  have hz' : -1 ≤ c3 - p3 ∧ c3 - p3 ≤ 1 := abs_le.mp hz
  have hd' : (p1 ≠ c1 ∧ p2 = c2 ∧ p3 = c3) ∨ (p1 = c1 ∧ p2 ≠ c2 ∧ p3 = c3) ∨
      (p1 = c1 ∧ p2 = c2 ∧ p3 ≠ c3) := hd
  clear hd hx hy hz
  rcases hd' with ⟨h1, rfl, rfl⟩ | ⟨rfl, h2, rfl⟩ | ⟨rfl, rfl, h3⟩
  · have h : c1 = p1 + 1 ∨ c1 = p1 - 1 := by omega
    rcases h with rfl | rfl <;>
      simp [onEvent, rightClick, faceBetween, SDL_BUTTON_RIGHT, SDL_BUTTON_LEFT]
  · have h : c2 = p2 + 1 ∨ c2 = p2 - 1 := by omega
    rcases h with rfl | rfl <;>
      simp [onEvent, rightClick, faceBetween, SDL_BUTTON_RIGHT, SDL_BUTTON_LEFT]
  · have h : c3 = p3 + 1 ∨ c3 = p3 - 1 := by omega
    rcases h with rfl | rfl <;>
      simp [onEvent, rightClick, faceBetween, SDL_BUTTON_RIGHT, SDL_BUTTON_LEFT]

omit [FloorRing K] in
/-- Consecutive ray samples differ by `0.1 * lookAt` on each coordinate. -/
theorem rayPoint_pred (pos la : Vec3 K) (k : Nat) (hk : 1 ≤ k) :
    (rayPoint pos la k).x = (rayPoint pos la (k - 1)).x + 0.1 * la.x ∧
    (rayPoint pos la k).y = (rayPoint pos la (k - 1)).y + 0.1 * la.y ∧
    (rayPoint pos la k).z = (rayPoint pos la (k - 1)).z + 0.1 * la.z := by
  obtain ⟨j, rfl⟩ : ∃ j, k = j + 1 := ⟨k - 1, by omega⟩
  simp only [rayPoint, Nat.add_sub_cancel]
  refine ⟨?_, ?_, ?_⟩ <;> push_cast <;> ring

/-- With look-vector components of absolute value at most 10, consecutive points
of the closed form lie in voxels at most one unit apart on each axis. -/
theorem voxelOf_rayPoint_step (pos la : Vec3 K) (k : Nat) (hk : 1 ≤ k)
    (hla : |la.x| ≤ 10 ∧ |la.y| ≤ 10 ∧ |la.z| ≤ 10) :
    |(voxelOf (rayPoint pos la k)).1 - (voxelOf (rayPoint pos la (k - 1))).1| ≤ 1 ∧
    |(voxelOf (rayPoint pos la k)).2.1 - (voxelOf (rayPoint pos la (k - 1))).2.1| ≤ 1 ∧
    |(voxelOf (rayPoint pos la k)).2.2 - (voxelOf (rayPoint pos la (k - 1))).2.2| ≤ 1 := by
  obtain ⟨ex, ey, ez⟩ := rayPoint_pred pos la k hk
  obtain ⟨hx, hy, hz⟩ := hla
  have small : ∀ v : K, |v| ≤ 10 → |0.1 * v| ≤ 1 := by
    intro v hv
    rw [abs_mul, abs_of_pos (by norm_num : (0 : K) < 0.1)]
    linarith
  simp only [voxelOf]
  rw [ex, ey, ez]
  exact ⟨floor_step _ _ (small _ hx), floor_step _ _ (small _ hy), floor_step _ _ (small _ hz)⟩

/-- In exact arithmetic, with look-vector components of absolute value at most 10,
consecutive samples lie in voxels at most one unit apart on each axis. -/
theorem sampleVoxel_exact_unitApart (cam : CursorCamera K) (j : Nat) (hj : 1 ≤ j)
    (hla : |(cameraLookAt exactFloat cam).x| ≤ 10 ∧ |(cameraLookAt exactFloat cam).y| ≤ 10 ∧
      |(cameraLookAt exactFloat cam).z| ≤ 10) :
    UnitApart (sampleVoxel exactFloat cam j) (sampleVoxel exactFloat cam (j - 1)) := by
  unfold UnitApart sampleVoxel
  rw [raySample_exact, raySample_exact]
  exact voxelOf_rayPoint_step _ _ j hj hla

/-- C20 (as stated) fails in single precision: with the camera at `x = -2⁻²⁴`, look
vector `(10, 0, 0)` and only voxel `(2, 0, 0)` non-air, sample 1 lies in voxel
`(0, 0, 0)` and sample 2, rounded up to `x = 2`, in voxel `(2, 0, 0)`; the hit
differs from the previous voxel on exactly one axis, and the right click writes
`(1, 0, 0)`, not the previous sample's voxel `(0, 0, 0)`. -/
theorem rayMarch_placement_counterexample :
    (|(cameraLookAt ieeeFloat edgeCamera).x| ≤ 10 ∧ |(cameraLookAt ieeeFloat edgeCamera).y| ≤ 10 ∧
      |(cameraLookAt ieeeFloat edgeCamera).z| ≤ 10) ∧
    (|(cameraPosition ieeeFloat edgeCamera).x| ≤ 10 ∧
      |(cameraPosition ieeeFloat edgeCamera).y| ≤ 10 ∧
      |(cameraPosition ieeeFloat edgeCamera).z| ≤ 10) ∧
    sampleVoxel ieeeFloat edgeCamera 1 = (0, 0, 0) ∧
    sampleVoxel ieeeFloat edgeCamera 2 = (2, 0, 0) ∧
    FirstHit ieeeFloat secondVoxelWorld edgeCamera 2 ∧
    DifferOnOneAxis (sampleVoxel ieeeFloat edgeCamera (2 - 1))
      (sampleVoxel ieeeFloat edgeCamera 2) ∧
    onEvent (findSelectedBlock ieeeFloat secondVoxelWorld edgeCamera ⟨0, 0, 0⟩ false)
      rightClick = [⟨1, 0, 0, 1⟩] := by
  have h1 : sampleVoxel ieeeFloat edgeCamera 1 = (0, 0, 0) := by decide!
  have h2 : sampleVoxel ieeeFloat edgeCamera 2 = (2, 0, 0) := by decide!
  refine ⟨by decide!, by decide!, h1, h2, ⟨by decide, by decide, ?_, fun i hi1 hi2 => ?_⟩, ?_,
    by decide!⟩
  · rw [h2]
    exact ⟨⟨1⟩, rfl, by decide⟩
  · have hi : i = 1 := by omega
    rw [hi, h1]
    rintro ⟨b, hb, _⟩
    cases hb
  · rw [h2, show (2 - 1 : Nat) = 1 from rfl, h1]
    exact Or.inl ⟨by decide, rfl, rfl⟩

/-- C20 (amended): if the ray march hits (first non-air sample `k`) a voxel that
differs from the voxel of the previous sample `k - 1` (the camera position when
`k = 1`) on exactly one axis, and by one unit there, the cell `onEvent` writes
on a right click is the voxel of that previous sample; when `k ≥ 2` that cell
is not a non-air voxel.  In exact arithmetic the one-unit condition holds for
every look vector whose components have absolute value at most 10. -/
theorem rayMarch_placement_cell (fl : FloatModel K) (world : World) (cam : CursorCamera K)
    (objCoord : Vec3 K) (k : Nat)
    (hhit : FirstHit fl world cam k)
    (hone : DifferOnOneAxis (sampleVoxel fl cam (k - 1)) (sampleVoxel fl cam k))
    (hunit : UnitApart (sampleVoxel fl cam k) (sampleVoxel fl cam (k - 1))) :
    onEvent (findSelectedBlock fl world cam objCoord false) rightClick =
      [⟨(sampleVoxel fl cam (k - 1)).1, (sampleVoxel fl cam (k - 1)).2.1,
        (sampleVoxel fl cam (k - 1)).2.2, 1⟩] ∧
    (2 ≤ k → ¬ world.IsNonAir (sampleVoxel fl cam (k - 1))) ∧
    (∀ (cam' : CursorCamera K) (j : Nat), 1 ≤ j →
      |(cameraLookAt exactFloat cam').x| ≤ 10 ∧ |(cameraLookAt exactFloat cam').y| ≤ 10 ∧
        |(cameraLookAt exactFloat cam').z| ≤ 10 →
      UnitApart (sampleVoxel exactFloat cam' j) (sampleVoxel exactFloat cam' (j - 1))) := by
  refine ⟨?_, fun h2k => hhit.2.2.2 (k - 1) (by omega) (by have := hhit.1; omega),
    fun cam' j hj hla => sampleVoxel_exact_unitApart cam' j hj hla⟩
  obtain ⟨hc, hw⟩ := firstHit_result fl world cam objCoord k hhit
  have key := onEvent_faceBetween _ _ hone hunit.1 hunit.2.1 hunit.2.2
  rw [← hw] at key
  have hsel : findSelectedBlock fl world cam objCoord false =
      ⟨(sampleVoxel fl cam k).1, (sampleVoxel fl cam k).2.1, (sampleVoxel fl cam k).2.2,
        (findSelectedBlock fl world cam objCoord false).w⟩ := by
    rw [← hc]
    rfl
  rw [hsel]
  exact key

/-- In single precision, along `+x` from the origin, the first 50 samples miss
voxel `(5, 0, 0)`. -/
theorem singleVoxel_float_misses :
    ∀ i, i < 51 → sampleVoxel ieeeFloat (⟨0, 0, 0, 1, 0, 0⟩ : CursorCamera ℚ) i ≠ (5, 0, 0) := by
  decide!

/-- The placement statement in single precision for the single voxel `(5, 0, 0)`
seen from the origin along `+x`: the hit is at sample 51, the previous sample
lies in voxel `(4, 0, 0)`, and the right-click cell is `(4, 0, 0)`. -/
theorem rayMarch_placement_cell_witness :
    FirstHit ieeeFloat singleVoxelWorld (⟨0, 0, 0, 1, 0, 0⟩ : CursorCamera ℚ) 51 ∧
    DifferOnOneAxis (sampleVoxel ieeeFloat (⟨0, 0, 0, 1, 0, 0⟩ : CursorCamera ℚ) (51 - 1))
      (sampleVoxel ieeeFloat (⟨0, 0, 0, 1, 0, 0⟩ : CursorCamera ℚ) 51) ∧
    UnitApart (sampleVoxel ieeeFloat (⟨0, 0, 0, 1, 0, 0⟩ : CursorCamera ℚ) 51)
      (sampleVoxel ieeeFloat (⟨0, 0, 0, 1, 0, 0⟩ : CursorCamera ℚ) (51 - 1)) ∧
    onEvent (findSelectedBlock ieeeFloat singleVoxelWorld (⟨0, 0, 0, 1, 0, 0⟩ : CursorCamera ℚ)
      ⟨0, 0, 0⟩ false) rightClick = [⟨4, 0, 0, 1⟩] := by
  have h50 : sampleVoxel ieeeFloat (⟨0, 0, 0, 1, 0, 0⟩ : CursorCamera ℚ) (51 - 1) = (4, 0, 0) := by
    decide!
  have h51 : sampleVoxel ieeeFloat (⟨0, 0, 0, 1, 0, 0⟩ : CursorCamera ℚ) 51 = (5, 0, 0) := by
    decide!
  have hhit : FirstHit ieeeFloat singleVoxelWorld (⟨0, 0, 0, 1, 0, 0⟩ : CursorCamera ℚ) 51 := by
    refine ⟨by decide, by decide, ?_, fun i _ hi => ?_⟩
    · rw [h51, singleVoxelWorld_only]
    · rw [singleVoxelWorld_only]
      exact singleVoxel_float_misses i hi
  have hone : DifferOnOneAxis
      (sampleVoxel ieeeFloat (⟨0, 0, 0, 1, 0, 0⟩ : CursorCamera ℚ) (51 - 1))
      (sampleVoxel ieeeFloat (⟨0, 0, 0, 1, 0, 0⟩ : CursorCamera ℚ) 51) := by
    rw [h50, h51]
    exact Or.inl ⟨by decide, rfl, rfl⟩
  have hunit : UnitApart (sampleVoxel ieeeFloat (⟨0, 0, 0, 1, 0, 0⟩ : CursorCamera ℚ) 51)
      (sampleVoxel ieeeFloat (⟨0, 0, 0, 1, 0, 0⟩ : CursorCamera ℚ) (51 - 1)) := by
    rw [h50, h51]
    exact ⟨by decide, by decide, by decide⟩
  have h := (rayMarch_placement_cell ieeeFloat singleVoxelWorld
    (⟨0, 0, 0, 1, 0, 0⟩ : CursorCamera ℚ) ⟨0, 0, 0⟩ 51 hhit hone hunit).1
  rw [h50] at h
  exact ⟨hhit, hone, hunit, h⟩

end PlacementTheorems

end OpenMiner
